import Mathlib

/-!
# Cyclon gossip node (`cyclon-gossip.c`): embedding and verification

The C program is one file: a handful of view/cache helpers followed by a `main`
whose `select` loop runs the periodic Cyclon cycle, the `CYCLON_PUSH` /
`CYCLON_REPLY` handlers, the application gossip handler and the console.

Modelling conventions.

* A C string (`char[]` read up to its terminating NUL) is a `List Char`.
  Buffer capacities (`char id[50]`, `MAX_BUFFER_SIZE`) are not part of the state;
  writing a longer string is undefined behaviour in C, and the model describes
  the program on inputs that fit.  For the datagram parser, whose `strcpy` calls
  copy network input into 50-byte arrays, `parse_overflow` tells when a copy
  does not fit.
* `int`, `time_t` are `Int`.  Loop counters that start at a non-negative
  constant and only count upwards are `Nat`.
* A C array is the list of its slots, *including the slots at and beyond the
  fill counter*: `select_random_descriptors` reads such stale slots.
  Reading outside the array yields the zero value, writing outside is a no-op
  (undefined behaviour in C; it does not occur on well-formed views).
* `rand()` is a stream `rnd : Nat → Nat`; the `i`-th call made by a function or
  handler returns `rnd i`.  `time(NULL)` is a stream `clk : Nat → Int` likewise.
* Every `for` loop is a structurally recursive function whose first explicit
  argument is the number of iterations still to run.
-/

namespace Cyclon

/-! ## Constants -/

def MAX_CACHED_MSGS : Nat := 50
def VIEW_LENGTH : Nat := 3
def SWAP_LENGTH : Nat := 2
def FORWARD_COUNT : Nat := 2

/-! ## Data model -/

/-- C string. -/
abbrev CStr := List Char

/-- Record `NodeDescriptor`. -/
structure NodeDescriptor where
  id : CStr
  ipaddr : CStr
  port : Int
  timestamp : Int
deriving DecidableEq, Repr

/-- Result of `memset(&d, 0, sizeof(NodeDescriptor))`. -/
def NodeDescriptor.zero : NodeDescriptor := ⟨[], [], 0, 0⟩

/-- Record `View`: the array `descriptors[VIEW_LENGTH]` with all its slots, and `count`. -/
structure View where
  descriptors : List NodeDescriptor
  count : Int
deriving DecidableEq, Repr

/-- Array read `a[i]`. -/
def rd (a : List NodeDescriptor) (i : Nat) : NodeDescriptor := a.getD i NodeDescriptor.zero

/-- The live part of the view: slots `0 .. count-1`. -/
def View.entries (v : View) : List NodeDescriptor := v.descriptors.take v.count.toNat

/-- Ids of the live part of the view. -/
def View.ids (v : View) : List CStr := v.entries.map NodeDescriptor.id

/-- A view as the C type can hold it with a count inside the array. -/
def View.wf (v : View) : Prop :=
  v.descriptors.length = VIEW_LENGTH ∧ 0 ≤ v.count ∧ v.count ≤ VIEW_LENGTH

instance (v : View) : Decidable v.wf := by unfold View.wf; infer_instance

/-! ## View helpers -/

/-- Loop of `find_oldest_descriptor`: `for (i = 1; i < count; i++) if (d[i].timestamp < oldest_time) ...`. -/
def find_oldest_loop (a : List NodeDescriptor) : Nat → Nat → Nat → Int → Nat
  | 0, _, oldest_idx, _ => oldest_idx
  | n + 1, i, oldest_idx, oldest_time =>
    if (rd a i).timestamp < oldest_time then
      find_oldest_loop a n (i + 1) i (rd a i).timestamp
    else
      find_oldest_loop a n (i + 1) oldest_idx oldest_time

/-- Function `find_oldest_descriptor`. -/
def find_oldest_descriptor (v : View) : Int :=
  if v.count = 0 then -1
  else (find_oldest_loop v.descriptors (v.count - 1).toNat 1 0 (rd v.descriptors 0).timestamp : Nat)

/-- Shifting loop `for (i = start; i < bound; i++) a[i] = a[i + 1];`, with the
number of iterations as first argument. -/
def shift_loop {α : Type} (dflt : α) : Nat → Nat → List α → List α
  | 0, _, a => a
  | n + 1, i, a => shift_loop dflt n (i + 1) (a.set i (a.getD (i + 1) dflt))

/-- Function `remove_descriptor`: the view afterwards and the returned descriptor. -/
def remove_descriptor (v : View) (index : Int) : View × NodeDescriptor :=
  if index < 0 ∨ index ≥ v.count then (v, NodeDescriptor.zero)
  else
    let removed := rd v.descriptors index.toNat
    ({ descriptors :=
         shift_loop NodeDescriptor.zero (v.count - 1 - index).toNat index.toNat v.descriptors,
       count := v.count - 1 }, removed)

/-- Statement `view->descriptors[i].timestamp = ts`. -/
def set_timestamp (a : List NodeDescriptor) (i : Nat) (ts : Int) : List NodeDescriptor :=
  a.set i { rd a i with timestamp := ts }

/-- The "check if already exists" loop shared verbatim by `add_descriptor` and
`update_descriptor`: `some a'` when an entry with the id was found (its
timestamp overwritten, the function returns from inside the loop), `none` when
the loop ran to its end. -/
def exists_loop (d : NodeDescriptor) : Nat → Nat → List NodeDescriptor → Option (List NodeDescriptor)
  | 0, _, _ => none
  | n + 1, i, a =>
    if (rd a i).id = d.id then some (set_timestamp a i d.timestamp)
    else exists_loop d n (i + 1) a

/-- Function `add_descriptor`: the view afterwards and the return value. -/
def add_descriptor (v : View) (d : NodeDescriptor) : View × Int :=
  if v.count ≥ VIEW_LENGTH then (v, 0)
  else if d.id.length = 0 then (v, 0)
  else
    match exists_loop d v.count.toNat 0 v.descriptors with
    | some a => ({ v with descriptors := a }, 0)
    | none => ({ descriptors := v.descriptors.set v.count.toNat d, count := v.count + 1 }, 1)

/-- Function `update_descriptor`: the view afterwards and the return value. -/
def update_descriptor (v : View) (d : NodeDescriptor) : View × Int :=
  if d.id.length = 0 then (v, 0)
  else
    match exists_loop d v.count.toNat 0 v.descriptors with
    | some a => ({ v with descriptors := a }, 1)
    | none =>
      if v.count < VIEW_LENGTH then
        ({ descriptors := v.descriptors.set v.count.toNat d, count := v.count + 1 }, 1)
      else (v, 0)

/-- Loop state of `select_random_descriptors`. -/
structure SelState where
  view : View
  indices : List Nat
  available : Int
  selected : List NodeDescriptor
deriving DecidableEq, Repr

/-- Selection loop of `select_random_descriptors`:
`for (i = 0; i < count && available > 0; i++)`; the first argument is `count - i`. -/
def select_loop (rnd : Nat → Nat) : Nat → Nat → SelState → SelState
  | 0, _, s => s
  | n + 1, i, s =>
    if s.available > 0 then
      let j := rnd i % s.available.toNat
      let p := s.indices.getD j 0
      let sel := rd s.view.descriptors p
      let a := shift_loop NodeDescriptor.zero (s.view.count - 1 - (p : Int)).toNat p s.view.descriptors
      select_loop rnd n (i + 1)
        { view := { descriptors := a, count := s.view.count - 1 },
          indices := s.indices.set j (s.indices.getD (s.available - 1).toNat 0),
          available := s.available - 1,
          selected := s.selected ++ [sel] }
    else s

/-- Function `select_random_descriptors`: the view afterwards and the descriptors
written to `selected[0 .. selected_count-1]` (the return value is their number). -/
def select_random_descriptors (rnd : Nat → Nat) (v : View) (count : Int) :
    View × List NodeDescriptor :=
  if v.count = 0 then (v, [])
  else
    let available := v.count
    let indices := List.range v.count.toNat
    let count := if count < available then count else available
    let s := select_loop rnd count.toNat 0
      { view := v, indices := indices, available := available, selected := [] }
    (s.view, s.selected)

/-! ## Gossip cache -/

/-- The array `cached_msgs[MAX_CACHED_MSGS]` with all its slots, and `msg_count`. -/
structure Cache where
  cached_msgs : List CStr
  msg_count : Int
deriving DecidableEq, Repr

/-- The live part of the cache: slots `0 .. msg_count-1`. -/
def Cache.entries (c : Cache) : List CStr := c.cached_msgs.take c.msg_count.toNat

/-- A cache as the C variables can hold it with a count inside the array. -/
def Cache.wf (c : Cache) : Prop :=
  c.cached_msgs.length = MAX_CACHED_MSGS ∧ 0 ≤ c.msg_count ∧ c.msg_count ≤ MAX_CACHED_MSGS

instance (c : Cache) : Decidable c.wf := by unfold Cache.wf; infer_instance

/-- Search loop of `is_duplicate_message`: `true` when it returns 1 from inside the loop. -/
def dup_loop (msg : CStr) : Nat → Nat → List CStr → Bool
  | 0, _, _ => false
  | n + 1, i, a => if msg = a.getD i [] then true else dup_loop msg n (i + 1) a

/-- Function `is_duplicate_message`: the cache afterwards and the return value. -/
def is_duplicate_message (msg : CStr) (c : Cache) : Cache × Int :=
  if dup_loop msg c.msg_count.toNat 0 c.cached_msgs then (c, 1)
  else if c.msg_count < MAX_CACHED_MSGS then
    ({ cached_msgs := c.cached_msgs.set c.msg_count.toNat msg, msg_count := c.msg_count + 1 }, 0)
  else
    ({ cached_msgs :=
         (shift_loop [] (MAX_CACHED_MSGS - 1) 0 c.cached_msgs).set (MAX_CACHED_MSGS - 1) msg,
       msg_count := c.msg_count }, 0)

/-! ## libc: `strtok`, `atoi`, `%d` -/

/-- One call of `strtok(.., ":")` on the text at the saved position: the token
and the new saved position, or `none` for a NULL result. -/
def strtok (s : CStr) : Option (CStr × CStr) :=
  let s1 := s.dropWhile (fun c => c = ':')
  if s1 = [] then none
  else some (s1.takeWhile (fun c => c ≠ ':'), (s1.dropWhile (fun c => c ≠ ':')).drop 1)

/-- Predicate `isspace` of the C locale. -/
def isspace (c : Char) : Bool :=
  c = ' ' ∨ c = '\t' ∨ c = '\n' ∨ c = '\x0b' ∨ c = '\x0c' ∨ c = '\r'

/-- Value of the longest prefix of decimal digits, continuing from `acc`. -/
def parse_digits : CStr → Nat → Nat
  | [], acc => acc
  | c :: cs, acc =>
    if '0' ≤ c ∧ c ≤ '9' then parse_digits cs (acc * 10 + (c.toNat - 48)) else acc

/-- Function `strtol(s, NULL, 10)` with a 64-bit `long`: saturating. -/
def strtol (s : CStr) : Int :=
  let s1 := s.dropWhile isspace
  if s1.head? = some '-' then max (-(parse_digits s1.tail 0 : Int)) (-(2 ^ 63))
  else if s1.head? = some '+' then min (parse_digits s1.tail 0 : Int) (2 ^ 63 - 1)
  else min (parse_digits s1 0 : Int) (2 ^ 63 - 1)

/-- Conversion of a `long` to a 32-bit `int`. -/
def to_int (x : Int) : Int := (x + 2 ^ 31) % 2 ^ 32 - 2 ^ 31

/-- Function `atoi`, as glibc defines it: `(int) strtol(s, NULL, 10)`. -/
def atoi (s : CStr) : Int := to_int (strtol s)

/-- Decimal digits of a natural number, most significant first; the first
argument bounds the number of digits. -/
def fmt_nat_loop : Nat → Nat → CStr → CStr
  | 0, _, acc => acc
  | f + 1, n, acc =>
    if n < 10 then Char.ofNat (48 + n) :: acc
    else fmt_nat_loop f (n / 10) (Char.ofNat (48 + n % 10) :: acc)

/-- Conversions `%d` and `%ld` of `printf`. -/
def fmt_d (x : Int) : CStr :=
  if x < 0 then '-' :: fmt_nat_loop (x.natAbs + 1) x.natAbs []
  else fmt_nat_loop (x.natAbs + 1) x.natAbs []

/-! ## The program state and what it sends -/

/-- Destination of a `sendto`: a peer's address and port, or the return address
`clientaddr` of the datagram being handled. -/
inductive Dest where
  | peer (ipaddr : CStr) (port : Int)
  | clientaddr
deriving DecidableEq, Repr

/-- One `sendto`. -/
structure Packet where
  dest : Dest
  payload : CStr
deriving DecidableEq, Repr

/-- The variables of `main` that live across iterations of the event loop. -/
structure State where
  myView : View
  cache : Cache
  last_partner : NodeDescriptor
  myDescriptor : NodeDescriptor
  last_cycle_time : Int
deriving DecidableEq, Repr

/-- The `sprintf(ptr, "%s:%s:%d:%ld:", ...)` loop of the PUSH and REPLY formatters. -/
def fmt_descriptors : List NodeDescriptor → CStr
  | [] => []
  | d :: ds =>
    d.id ++ [':'] ++ d.ipaddr ++ [':'] ++ fmt_d d.port ++ [':'] ++ fmt_d d.timestamp ++ [':']
      ++ fmt_descriptors ds

/-- Fisher-Yates loop `for (i = n - 1; i > 0; i--) { j = rand() % (i + 1); swap a[i], a[j] }`
(bootstrap and both fan-outs).  First argument: the current `i`; second: how
many `rand()` calls the loop has made. -/
def shuffle_loop (rnd : Nat → Nat) : Nat → Nat → List Nat → List Nat
  | 0, _, a => a
  | i + 1, k, a =>
    let j := rnd k % (i + 2)
    let temp := a.getD (i + 1) 0
    shuffle_loop rnd i (k + 1) ((a.set (i + 1) (a.getD j 0)).set j temp)

/-- Fan-out shared verbatim by the inbound gossip branch and the console branch:
shuffle the view indices, `sendto` the first `min(count, FORWARD_COUNT)`. -/
def fanout (rnd : Nat → Nat) (v : View) (payload : CStr) : List Packet :=
  if v.count > 0 then
    let indices := shuffle_loop rnd (v.count - 1).toNat 0 (List.range v.count.toNat)
    let forward_to := if v.count < FORWARD_COUNT then v.count else FORWARD_COUNT
    (List.range forward_to.toNat).map fun i =>
      let d := rd v.descriptors (indices.getD i 0)
      { dest := Dest.peer d.ipaddr d.port, payload := payload }
  else []

/-! ## Periodic cycle -/

/-- Body of `if ((current_time - last_cycle_time) >= cycle_interval)` after the
assignment to `last_cycle_time`; `now` is the value `time(NULL)` returns for
`myDescriptor.timestamp`. -/
def cyclon_cycle (rnd : Nat → Nat) (now : Int) (s : State) : State × List Packet :=
  if s.myView.count > 0 then
    let oldest_idx := find_oldest_descriptor s.myView
    if oldest_idx ≥ 0 then
      let r1 := remove_descriptor s.myView oldest_idx
      let r2 :=
        if r1.2.id = s.last_partner.id ∧ r1.1.count > 0 then
          let v := (add_descriptor r1.1 r1.2).1
          remove_descriptor v (find_oldest_descriptor v)
        else r1
      let partner := r2.2
      let sendable : Int := SWAP_LENGTH - 1
      let r3 :=
        if sendable > 0 ∧ r2.1.count > 0 then select_random_descriptors rnd r2.1 sendable
        else (r2.1, [])
      let my := { s.myDescriptor with timestamp := now }
      let total_to_send : Int := 1 + r3.2.length
      let msg := "CYCLON_PUSH:".toList ++ fmt_d total_to_send ++ [':'] ++ fmt_descriptors (my :: r3.2)
      ({ s with myView := r3.1, last_partner := partner, myDescriptor := my },
       [{ dest := Dest.peer partner.ipaddr partner.port, payload := msg }])
    else (s, [])
  else (s, [])

/-! ## Inbound datagrams -/

/-- Loop state of the descriptor parser: `strtok`'s saved position, the
filled part of `received[]`, and `sender`. -/
structure ParseState where
  rest : CStr
  received : List NodeDescriptor
  sender : NodeDescriptor
deriving DecidableEq, Repr

/-- Descriptor-extraction loop `for (i = 0; i < count && received_count < VIEW_LENGTH; i++)`
of the PUSH handler (the REPLY handler has the same loop without the `sender`
assignment and never reads `sender`).  Each accepted descriptor makes one
`time(NULL)` call, so the call made for `received[k]` is call number `k`.
The id and address tokens are copied with `strcpy` into `char id[50]`,
`ipaddr[50]`: the loop below is the C loop for tokens of at most 49 bytes, and
`parse_overflow` tells when a longer one is copied. -/
def parse_loop (clk : Nat → Int) : Nat → Nat → ParseState → ParseState
  | 0, _, p => p
  | n + 1, i, p =>
    if p.received.length < VIEW_LENGTH then
      match strtok p.rest with
      | none => p
      | some (id, r1) =>
        match strtok r1 with
        | none => p
        | some (ipaddr, r2) =>
          match strtok r2 with
          | none => p
          | some (port_tok, r3) =>
            match strtok r3 with
            | none => p
            | some (_, r4) =>
              let port := atoi port_tok
              if id.length > 0 ∧ port > 0 then
                let desc : NodeDescriptor :=
                  { id := id, ipaddr := ipaddr, port := port, timestamp := clk p.received.length }
                parse_loop clk n (i + 1)
                  { rest := r4, received := p.received ++ [desc],
                    sender := if i = 0 then desc else p.sender }
              else parse_loop clk n (i + 1) { p with rest := r4 }
    else p

/-- Integration loop `for (i = 0; i < received_count; i++) if (strcmp(received[i].id, myDescriptor.id) != 0) add_descriptor(...)`. -/
def integrate (myid : CStr) : List NodeDescriptor → View → View
  | [], v => v
  | d :: ds, v => integrate myid ds (if d.id ≠ myid then (add_descriptor v d).1 else v)

/-- Branch `strncmp(buf, "CYCLON_PUSH:", 12) == 0` of the datagram handler. -/
def handle_push (rnd : Nat → Nat) (clk : Nat → Int) (buf : CStr) (s : State) :
    State × List Packet :=
  match strtok buf with
  | none => (s, [])
  | some (_, r0) =>
    match strtok r0 with
    | none => (s, [])
    | some (token, r1) =>
      let count := atoi token
      let p := parse_loop clk count.toNat 0
        { rest := r1, received := [], sender := NodeDescriptor.zero }
      let r :=
        if s.myView.count > 0 then select_random_descriptors rnd s.myView SWAP_LENGTH
        else (s.myView, [])
      let v := integrate s.myDescriptor.id p.received r.1
      let reply := "CYCLON_REPLY:".toList ++ fmt_d r.2.length ++ [':'] ++ fmt_descriptors r.2
      ({ s with myView := (update_descriptor v p.sender).1 },
       [{ dest := Dest.clientaddr, payload := reply }])

/-- Branch `strncmp(buf, "CYCLON_REPLY:", 13) == 0` of the datagram handler. -/
def handle_reply (clk : Nat → Int) (buf : CStr) (s : State) : State × List Packet :=
  match strtok buf with
  | none => (s, [])
  | some (_, r0) =>
    match strtok r0 with
    | none => (s, [])
    | some (token, r1) =>
      let count := atoi token
      let p := parse_loop clk count.toNat 0
        { rest := r1, received := [], sender := NodeDescriptor.zero }
      let v := integrate s.myDescriptor.id p.received s.myView
      let lp := { s.last_partner with timestamp := clk p.received.length }
      ({ s with myView := (update_descriptor v lp).1, last_partner := lp }, [])

/-- Last branch of the datagram handler: an application gossip payload. -/
def handle_gossip (rnd : Nat → Nat) (buf : CStr) (s : State) : State × List Packet :=
  let r := is_duplicate_message buf s.cache
  if r.2 = 0 then ({ s with cache := r.1 }, fanout rnd s.myView buf)
  else ({ s with cache := r.1 }, [])

/-- Block `if (result > 0 && FD_ISSET(srvsock, &tempset))`; `buf` is the C string
in the receive buffer. -/
def handle_datagram (rnd : Nat → Nat) (clk : Nat → Int) (buf : CStr) (s : State) :
    State × List Packet :=
  if "CYCLON_PUSH:".toList.isPrefixOf buf then handle_push rnd clk buf s
  else if "CYCLON_REPLY:".toList.isPrefixOf buf then handle_reply clk buf s
  else handle_gossip rnd buf s

/-! ## Console -/

/-- Statement `buf[strcspn(buf, "\n")] = 0`: the console input up to its first newline. -/
def console_line (buf : CStr) : CStr := buf.takeWhile (fun c => c ≠ '\n')

/-- Result of `snprintf(formattedMessage, MAX_BUFFER_SIZE, "%s: %.900s", myDescriptor.id, buf)`. -/
def formattedMessage (myid line : CStr) : CStr :=
  (myid ++ ": ".toList ++ line.take 900).take 1023

/-- Block `if (result > 0 && FD_ISSET(STDIN_FILENO, &tempset))`; `buf` is the C
string read from standard input.  `BYE` leaves the loop: no further event follows. -/
def handle_input (rnd : Nat → Nat) (buf : CStr) (s : State) : State × List Packet :=
  let line := console_line buf
  if line = "BYE".toList then (s, [])
  else if line = "VIEW".toList then (s, [])
  else if line = "CYCLE".toList then ({ s with last_cycle_time := 0 }, [])
  else
    let r := is_duplicate_message (formattedMessage s.myDescriptor.id line) s.cache
    ({ s with cache := r.1 }, fanout rnd s.myView (formattedMessage s.myDescriptor.id line))

/-! ## Event loop -/

/-- What one pass of the `while (1)` loop can do. -/
inductive Event where
  /-- The timer check; `clk 0` is `current_time`, `clk 1` the self timestamp. -/
  | tick (clk : Nat → Int) (rnd : Nat → Nat)
  /-- A datagram was received. -/
  | datagram (buf : CStr) (clk : Nat → Int) (rnd : Nat → Nat)
  /-- A console line was read. -/
  | input (buf : CStr) (rnd : Nat → Nat)

/-- Cycle interval in seconds. -/
def cycle_interval : Int := 10

/-- One event of the loop in `main`: the state afterwards and the packets sent. -/
def main_step (s : State) : Event → State × List Packet
  | Event.tick clk rnd =>
    if clk 0 - s.last_cycle_time ≥ cycle_interval then
      cyclon_cycle rnd (clk 1) { s with last_cycle_time := clk 0 }
    else (s, [])
  | Event.datagram buf clk rnd => handle_datagram rnd clk buf s
  | Event.input buf rnd => handle_input rnd buf s

/-- The state after a sequence of events. -/
def main_run (s : State) : List Event → State
  | [] => s
  | e :: es => main_run (main_step s e).1 es

/-! ## Start-up -/

/-- Loop `for (i = 0; i < userCount; i++) if (allUsers[i].port == portno) { ...; break; }`:
the value of `myIndex`, `none` standing for -1. -/
def find_self (portno : Int) : List NodeDescriptor → Nat → Option Nat
  | [], _ => none
  | u :: us, i => if u.port = portno then some i else find_self portno us (i + 1)

/-- Seeding loop `for (i = 0; i < initialViewSize; i++) add_descriptor(&myView, allUsers[otherIndices[i]])`. -/
def seed_loop (allUsers : List NodeDescriptor) (otherIndices : List Nat) : Nat → Nat → View → View
  | 0, _, v => v
  | n + 1, i, v =>
    seed_loop allUsers otherIndices n (i + 1)
      (add_descriptor v (rd allUsers (otherIndices.getD i 0))).1

/-- Start of `main` up to the event loop.  `allUsers` is the roster as read from
`users.txt` (each entry stamped with the time of reading), `portno` the command
line port, `junk` and `cjunk` the uninitialised contents of `myView.descriptors`
and `cached_msgs`, `now` the time at which the loop is entered.  `none` is an
`error(..)` exit. -/
def main_init (allUsers : List NodeDescriptor) (portno : Int) (rnd : Nat → Nat)
    (junk : List NodeDescriptor) (cjunk : List CStr) (now : Int) : Option State :=
  if allUsers.length < 2 then none
  else
    match find_self portno allUsers 0 with
    | none => none
    | some myIndex =>
      let otherIndices := (List.range allUsers.length).filter (fun i => i ≠ myIndex)
      let otherCount := otherIndices.length
      let shuffled := shuffle_loop rnd (otherCount - 1) 0 otherIndices
      let initialViewSize := if otherCount < VIEW_LENGTH then otherCount else VIEW_LENGTH
      some
        { myView := seed_loop allUsers shuffled initialViewSize 0 { descriptors := junk, count := 0 },
          cache := { cached_msgs := cjunk, msg_count := 0 },
          last_partner := NodeDescriptor.zero,
          myDescriptor := rd allUsers myIndex,
          last_cycle_time := now }

/-! ## Auxiliary definitions used by the statements and proofs -/

/-- One removal as `remove_descriptor` and the body of `select_random_descriptors`
perform it: shift the slots above `p` down by one and decrement `count`. -/
def remove_at (v : View) (p : Nat) : View :=
  { descriptors := shift_loop NodeDescriptor.zero (v.count - 1 - (p : Int)).toNat p v.descriptors,
    count := v.count - 1 }

/-- Body of the selection loop of `select_random_descriptors`. -/
def sel_step (rnd : Nat → Nat) (i : Nat) (s : SelState) : SelState :=
  let j := rnd i % s.available.toNat
  { view := remove_at s.view (s.indices.getD j 0),
    indices := s.indices.set j (s.indices.getD (s.available - 1).toNat 0),
    available := s.available - 1,
    selected := s.selected ++ [rd s.view.descriptors (s.indices.getD j 0)] }

/-- View invariant: a well-formed view whose live entries have pairwise distinct ids. -/
def View.inv (v : View) : Prop := v.wf ∧ v.ids.Nodup

/-- A random stream given by its first values (0 afterwards). -/
def draws (l : List Nat) : Nat → Nat := fun i => l.getD i 0

/-! ## Concrete nodes, views and runs used in the evaluations below -/

def exA : NodeDescriptor := ⟨['A'], "10.0.0.1".toList, 9001, 100⟩
def exB : NodeDescriptor := ⟨['B'], "10.0.0.2".toList, 9002, 100⟩
def exC : NodeDescriptor := ⟨['C'], "10.0.0.3".toList, 9003, 100⟩

/-- Some contents for the uninitialised view array. -/
def exJunk : List NodeDescriptor :=
  [NodeDescriptor.zero, NodeDescriptor.zero, NodeDescriptor.zero]

/-- Some contents for the uninitialised cache array. -/
def exCJunk : List CStr := List.replicate 50 []

/-- Node A right after start-up with the roster A, B: its view is [B]. -/
def exStart : State :=
  { myView := ⟨[exB, NodeDescriptor.zero, NodeDescriptor.zero], 1⟩,
    cache := ⟨exCJunk, 0⟩,
    last_partner := NodeDescriptor.zero,
    myDescriptor := exA,
    last_cycle_time := 100 }

/-- A full view A, B, C. -/
def exFull : View := ⟨[exA, exB, exC], 3⟩

/-- A run of node A: a cycle with B at time 110, B's reply carrying X and Y at
111, then a push from C at 112 whose reply takes X and Y out of the view. -/
def exRun : List Event :=
  [ Event.tick (fun _ => 110) (draws []),
    Event.datagram "CYCLON_REPLY:2:X:10.0.0.4:9004:0:Y:10.0.0.5:9005:0:".toList
      (fun _ => 111) (draws []),
    Event.datagram "CYCLON_PUSH:1:C:10.0.0.3:9003:0:".toList (fun _ => 112) (draws [1, 0]) ]

/-- Fifty pairwise distinct application payloads `aa`, `ab`, ... -/
def exPayloads : List CStr :=
  (List.range 50).map fun i => [Char.ofNat (97 + i / 26), Char.ofNat (97 + i % 26)]

/-- Fifty inbound application datagrams with pairwise distinct payloads. -/
def exFlood : List Event := exPayloads.map fun m => Event.datagram m (fun _ => 0) (draws [])

/-- All sequences of two draws `rand() % 3`, `rand() % 2`. -/
def exDraws32 : List (List Nat) := [[0, 0], [0, 1], [1, 0], [1, 1], [2, 0], [2, 1]]

/-- Partner selection of the cycle (the statements between "Step 1" and
`last_partner = partner`): the view afterwards and the partner. -/
def select_partner (v : View) (last_partner : NodeDescriptor) : View × NodeDescriptor :=
  if (remove_descriptor v (find_oldest_descriptor v)).2.id = last_partner.id ∧
      (remove_descriptor v (find_oldest_descriptor v)).1.count > 0 then
    remove_descriptor
      (add_descriptor (remove_descriptor v (find_oldest_descriptor v)).1
        (remove_descriptor v (find_oldest_descriptor v)).2).1
      (find_oldest_descriptor
        (add_descriptor (remove_descriptor v (find_oldest_descriptor v)).1
          (remove_descriptor v (find_oldest_descriptor v)).2).1)
  else remove_descriptor v (find_oldest_descriptor v)


/-- A view with ages 5, 10, 3 at time 100. -/
def exAges : View :=
  ⟨[{ exA with timestamp := 95 }, { exB with timestamp := 90 }, { exC with timestamp := 97 }], 3⟩

/-- The state of the cache after the calls `is_duplicate_message(m, ..)` for the
messages of a list, in order. -/
def cache_run (c : Cache) : List CStr → Cache
  | [] => c
  | m :: ms => cache_run (is_duplicate_message m c).1 ms

/-- Cache invariant: a well-formed cache whose live payloads are pairwise distinct. -/
def Cache.inv (c : Cache) : Prop := c.wf ∧ c.entries.Nodup

def exD : NodeDescriptor := ⟨['D'], "10.0.0.4".toList, 9004, 100⟩

/-- Node A right after start-up with the roster A, B, C, D and draws 2, 0: its
view is [C, B, D]. -/
def exStart4 : State :=
  { myView := ⟨[exC, exB, exD], 3⟩,
    cache := ⟨exCJunk, 0⟩,
    last_partner := NodeDescriptor.zero,
    myDescriptor := exA,
    last_cycle_time := 100 }

/-- The view positions the fan-out sends to, in order. -/
def fanout_positions (rnd : Nat → Nat) (v : View) : List Nat :=
  if v.count > 0 then
    (List.range (if v.count < FORWARD_COUNT then v.count else FORWARD_COUNT).toNat).map fun i =>
      (shuffle_loop rnd (v.count - 1).toNat 0 (List.range v.count.toNat)).getD i 0
  else []

/-- The packet the fan-out sends to the peer at a view position. -/
def fanout_packet (v : View) (payload : CStr) (i : Nat) : Packet :=
  { dest := Dest.peer (rd v.descriptors i).ipaddr (rd v.descriptors i).port, payload := payload }

/-- Decimal digit characters. -/
def is_digit (c : Char) : Prop := '0' ≤ c ∧ c ≤ '9'

instance (c : Char) : Decidable (is_digit c) := by unfold is_digit; infer_instance

/-- The descriptors of a message as the receiver stores them: every timestamp
replaced by the receiver's clock reading for that descriptor. -/
def stamp (clk : Nat → Int) : Nat → List NodeDescriptor → List NodeDescriptor
  | _, [] => []
  | k, d :: ds => { d with timestamp := clk k } :: stamp clk (k + 1) ds

/-- Text of a `CYCLON_PUSH` / `CYCLON_REPLY` datagram as the two formatters build
it: the tag, the count with `%d:`, then the descriptor groups. -/
def fmt_message (tag : CStr) (ds : List NodeDescriptor) : CStr :=
  tag ++ fmt_d (ds.length : Int) ++ [':'] ++ fmt_descriptors ds

/-- Parsing part shared by the PUSH and REPLY handlers: skip the tag, read the
count, run the extraction loop; `none` when the count token is missing. -/
def parse_datagram (clk : Nat → Int) (buf : CStr) : Option ParseState :=
  match strtok buf with
  | none => none
  | some (_, r0) =>
    match strtok r0 with
    | none => none
    | some (token, r1) =>
      some (parse_loop clk (atoi token).toNat 0
        { rest := r1, received := [], sender := NodeDescriptor.zero })

/-- A descriptor that the wire format can carry. -/
def wire_ok (d : NodeDescriptor) : Prop :=
  d.id ≠ [] ∧ ':' ∉ d.id ∧ d.ipaddr ≠ [] ∧ ':' ∉ d.ipaddr ∧ 1 ≤ d.port ∧ d.port ≤ 65535

instance (d : NodeDescriptor) : Decidable (wire_ok d) := by unfold wire_ok; infer_instance

/-- A state with the view B whose last partner is C. -/
def exReplyState : State := { exStart with last_partner := exC }

/-- Views that hold no empty id (and are well-formed): `add_descriptor` and
`update_descriptor` refuse a descriptor with `strlen(d.id) == 0`, so every view
the program builds is of this kind. -/
def View.named (v : View) : Prop := v.wf ∧ ([] : CStr) ∉ v.ids

/-- Whether a `strcpy` of the descriptor-extraction loop writes past its 50-byte
destination (`char id[50], ipaddr[50]`, copied on to `desc.id`, `desc.ipaddr`):
the loop of `parse_loop`, with `rc` the value of `received_count`, answering
`true` as soon as an id or address token of 50 or more bytes is copied.  From
that point on the C program has undefined behaviour and `parse_loop`, which
keeps the whole token, does not describe it. -/
def parse_overflow : Nat → CStr → Nat → Bool
  | 0, _, _ => false
  | n + 1, rest, rc =>
    if rc < VIEW_LENGTH then
      match strtok rest with
      | none => false
      | some (id, r1) =>
        if 50 ≤ id.length then true
        else
          match strtok r1 with
          | none => false
          | some (ipaddr, r2) =>
            if 50 ≤ ipaddr.length then true
            else
              match strtok r2 with
              | none => false
              | some (port_tok, r3) =>
                match strtok r3 with
                | none => false
                | some (_, r4) =>
                  parse_overflow n r4 (if id.length > 0 ∧ atoi port_tok > 0 then rc + 1 else rc)
    else false

theorem shift_loop_length {α : Type} (dflt : α) (n i : Nat) (a : List α) :
    (shift_loop dflt n i a).length = a.length := by
  induction n generalizing i a with
  | zero => rfl
  | succ n ih => simp [shift_loop, ih]

/-- A well-formed view is three slots and a count among 0, 1, 2, 3. -/
theorem View.wf_cases (v : View) (h : v.wf) :
    ∃ a b c, v = ⟨[a, b, c], 0⟩ ∨ v = ⟨[a, b, c], 1⟩ ∨ v = ⟨[a, b, c], 2⟩ ∨ v = ⟨[a, b, c], 3⟩ := by
  obtain ⟨ds, n⟩ := v
  obtain ⟨hl, h0, h3⟩ := h
  simp only [VIEW_LENGTH] at hl h0 h3
  match ds, hl with
  | [a, b, c], _ =>
    refine ⟨a, b, c, ?_⟩
    have hn : n = 0 ∨ n = 1 ∨ n = 2 ∨ n = 3 := by
      simp at h3; omega
    rcases hn with rfl | rfl | rfl | rfl <;> simp

theorem add_descriptor_wf (v : View) (d : NodeDescriptor) (h : v.wf) :
    (add_descriptor v d).1.wf := by
  obtain ⟨a, b, c, rfl | rfl | rfl | rfl⟩ := v.wf_cases h <;>
    simp [add_descriptor, exists_loop, View.wf, VIEW_LENGTH, rd, set_timestamp] <;>
    (try split_ifs) <;> simp

theorem add_descriptor_nodup (v : View) (d : NodeDescriptor) (h : v.wf) (hn : v.ids.Nodup) :
    (add_descriptor v d).1.ids.Nodup := by
  obtain ⟨a, b, c, rfl | rfl | rfl | rfl⟩ := v.wf_cases h <;>
    simp [add_descriptor, exists_loop, View.ids, View.entries, VIEW_LENGTH, rd,
      set_timestamp] at hn ⊢ <;>
    (try split_ifs) <;> simp_all [View.ids, View.entries]

theorem update_descriptor_wf (v : View) (d : NodeDescriptor) (h : v.wf) :
    (update_descriptor v d).1.wf := by
  obtain ⟨a, b, c, rfl | rfl | rfl | rfl⟩ := v.wf_cases h <;>
    simp [update_descriptor, exists_loop, View.wf, VIEW_LENGTH, rd, set_timestamp] <;>
    (try split_ifs) <;> simp

theorem update_descriptor_nodup (v : View) (d : NodeDescriptor) (h : v.wf) (hn : v.ids.Nodup) :
    (update_descriptor v d).1.ids.Nodup := by
  obtain ⟨a, b, c, rfl | rfl | rfl | rfl⟩ := v.wf_cases h <;>
    simp [update_descriptor, exists_loop, View.ids, View.entries, VIEW_LENGTH, rd,
      set_timestamp] at hn ⊢ <;>
    (try split_ifs) <;> simp_all [View.ids, View.entries]

theorem remove_at_sublist (v : View) (p : Nat) (h : v.wf) (hc : 0 < v.count) :
    (remove_at v p).entries.Sublist v.entries := by
  have hp : p = 0 ∨ p = 1 ∨ p = 2 ∨ 3 ≤ p := by omega
  obtain ⟨a, b, c, rfl | rfl | rfl | rfl⟩ := v.wf_cases h <;>
  rcases hp with rfl | rfl | rfl | hp <;>
    simp [remove_at, shift_loop, View.entries] at hc ⊢ <;>
    simp [show 1 - p = 0 by omega, show 2 - p = 0 by omega, shift_loop]

theorem remove_at_wf (v : View) (p : Nat) (h : v.wf) (hc : 0 < v.count) : (remove_at v p).wf := by
  obtain ⟨hl, h0, h3⟩ := h
  refine ⟨?_, ?_, ?_⟩ <;> simp only [remove_at, shift_loop_length] <;> omega

theorem remove_descriptor_eq (v : View) (index : Int) :
    remove_descriptor v index =
      if index < 0 ∨ index ≥ v.count then (v, NodeDescriptor.zero)
      else (remove_at v index.toNat, rd v.descriptors index.toNat) := by
  unfold remove_descriptor remove_at
  split_ifs with h
  · rfl
  · have : ((index.toNat : Nat) : Int) = index := Int.toNat_of_nonneg (by omega)
    simp [this]

theorem remove_descriptor_wf (v : View) (index : Int) (h : v.wf) :
    (remove_descriptor v index).1.wf := by
  rw [remove_descriptor_eq]
  split_ifs with hi
  · exact h
  · exact remove_at_wf v _ h (by omega)

theorem remove_descriptor_sublist (v : View) (index : Int) (h : v.wf) :
    (remove_descriptor v index).1.entries.Sublist v.entries := by
  rw [remove_descriptor_eq]
  split_ifs with hi
  · exact List.Sublist.refl _
  · exact remove_at_sublist v _ h (by omega)

theorem select_loop_succ (rnd : Nat → Nat) (n i : Nat) (s : SelState) :
    select_loop rnd (n + 1) i s =
      if s.available > 0 then select_loop rnd n (i + 1) (sel_step rnd i s) else s := rfl

/-- Invariant of the selection loop, for any number of iterations and any draws:
the view stays well-formed, its live entries are a sublist of the former ones,
and `count` drops by exactly the number of descriptors selected. -/
theorem select_loop_inv (rnd : Nat → Nat) (n i : Nat) (s : SelState)
    (h : s.view.wf) (ha : s.available = s.view.count) :
    (select_loop rnd n i s).view.wf ∧
      (select_loop rnd n i s).view.entries.Sublist s.view.entries ∧
      (select_loop rnd n i s).view.count = s.view.count - min (n : Int) s.view.count ∧
      ((select_loop rnd n i s).selected.length : Int)
        = s.selected.length + min (n : Int) s.view.count := by
  induction n generalizing i s with
  | zero =>
    have := h.2.1
    simp [select_loop, h]; omega
  | succ n ih =>
    rw [select_loop_succ]
    split_ifs with hpos
    · have hc : 0 < s.view.count := by omega
      have hw := remove_at_wf s.view (s.indices.getD (rnd i % s.available.toNat) 0) h hc
      have hs := remove_at_sublist s.view (s.indices.getD (rnd i % s.available.toNat) 0) h hc
      obtain ⟨h1, h2, h3, h4⟩ :=
        ih (i + 1) (sel_step rnd i s) hw (by simp [sel_step, remove_at, ha])
      refine ⟨h1, h2.trans hs, ?_, ?_⟩
      · rw [h3]; simp only [sel_step, remove_at]; push_cast; omega
      · rw [h4]
        simp only [sel_step, remove_at, List.length_append, List.length_singleton]
        push_cast; omega
    · have := h.2.1
      refine ⟨h, List.Sublist.refl _, ?_, ?_⟩ <;> omega

/-- What `select_random_descriptors` guarantees for every `count` argument and every
sequence of draws. -/
theorem select_random_descriptors_inv (rnd : Nat → Nat) (v : View) (k : Int) (h : v.wf) :
    (select_random_descriptors rnd v k).1.wf ∧
      (select_random_descriptors rnd v k).1.entries.Sublist v.entries ∧
      (select_random_descriptors rnd v k).1.count = v.count - min (max k 0) v.count ∧
      ((select_random_descriptors rnd v k).2.length : Int) = min (max k 0) v.count := by
  unfold select_random_descriptors
  have h0 := h.2.1
  split_ifs with hz
  · simp [h, hz]
  · obtain ⟨h1, h2, h3, h4⟩ := select_loop_inv rnd (if k < v.count then k else v.count).toNat 0
      { view := v, indices := List.range v.count.toNat, available := v.count, selected := [] }
      h rfl
    refine ⟨h1, h2, ?_, ?_⟩
    · rw [h3]; simp only []; split_ifs <;> omega
    · rw [h4]; simp only [List.length_nil]; split_ifs <;> push_cast <;> omega

/-- With a count argument of at most `SWAP_LENGTH` (the program passes 1 and 2) the
stale slots are harmless: the descriptors returned and the entries left are a
permutation of the former entries, for any draws. -/
theorem select_random_descriptors_perm (rnd : Nat → Nat) (v : View) (k : Int) (hw : v.wf)
    (hk : k ≤ SWAP_LENGTH) :
    ((select_random_descriptors rnd v k).2 ++ (select_random_descriptors rnd v k).1.entries).Perm
      v.entries := by
  simp only [SWAP_LENGTH] at hk
  have hk3 : k ≤ 0 ∨ k = 1 ∨ k = 2 := by push_cast at hk; omega
  have m3 : rnd 0 % 3 = 0 ∨ rnd 0 % 3 = 1 ∨ rnd 0 % 3 = 2 := by omega
  have m2 : rnd 0 % 2 = 0 ∨ rnd 0 % 2 = 1 := by omega
  have n2 : rnd 1 % 2 = 0 ∨ rnd 1 % 2 = 1 := by omega
  have z : ∀ c : Int, k ≤ 0 → 0 < c → (if k < c then k else c).toNat = 0 := by
    intro c h1 h2; rw [if_pos (by omega)]; omega
  obtain ⟨a, b, c, rfl | rfl | rfl | rfl⟩ := v.wf_cases hw
  · simp [select_random_descriptors, View.entries]
  · rcases hk3 with h | rfl | rfl
    · simp [select_random_descriptors, z _ h, select_loop, View.entries]
    · simp [select_random_descriptors, select_loop, shift_loop, View.entries, rd, Nat.mod_one]
    · simp [select_random_descriptors, select_loop, shift_loop, View.entries, rd, Nat.mod_one]
  · rcases hk3 with h | rfl | rfl
    · simp [select_random_descriptors, z _ h, select_loop, View.entries]
    · rcases m2 with e | e <;>
        simp [select_random_descriptors, select_loop, shift_loop, View.entries, rd, e,
          List.range, List.range.loop, List.Perm.swap]
    · rcases m2 with e | e <;>
        simp [select_random_descriptors, select_loop, shift_loop, View.entries, rd, e,
          List.range, List.range.loop, Nat.mod_one, List.Perm.swap]
  · rcases hk3 with h | rfl | rfl
    · simp [select_random_descriptors, z _ h, select_loop, View.entries]
    · rcases m3 with e | e | e <;>
        simp [select_random_descriptors, select_loop, shift_loop, View.entries, rd, e,
          List.range, List.range.loop] <;>
        (rw [List.perm_iff_count]; intro x; simp [List.count_cons]; omega)
    · rcases m3 with e | e | e <;> rcases n2 with f | f <;>
        simp [select_random_descriptors, select_loop, shift_loop, View.entries, rd, e, f,
          List.range, List.range.loop] <;>
        (rw [List.perm_iff_count]; intro x; simp [List.count_cons]; omega)

theorem View.inv_of_sublist {v w : View} (hw : w.wf) (hs : w.entries.Sublist v.entries)
    (hv : v.ids.Nodup) : w.inv :=
  ⟨hw, List.Nodup.sublist (List.Sublist.map _ hs) hv⟩

theorem add_descriptor_inv (v : View) (d : NodeDescriptor) (h : v.inv) :
    (add_descriptor v d).1.inv :=
  ⟨add_descriptor_wf v d h.1, add_descriptor_nodup v d h.1 h.2⟩

theorem update_descriptor_inv (v : View) (d : NodeDescriptor) (h : v.inv) :
    (update_descriptor v d).1.inv :=
  ⟨update_descriptor_wf v d h.1, update_descriptor_nodup v d h.1 h.2⟩

theorem remove_descriptor_inv (v : View) (index : Int) (h : v.inv) :
    (remove_descriptor v index).1.inv :=
  View.inv_of_sublist (remove_descriptor_wf v index h.1) (remove_descriptor_sublist v index h.1) h.2

theorem select_random_descriptors_view_inv (rnd : Nat → Nat) (v : View) (k : Int) (h : v.inv) :
    (select_random_descriptors rnd v k).1.inv :=
  View.inv_of_sublist (select_random_descriptors_inv rnd v k h.1).1
    (select_random_descriptors_inv rnd v k h.1).2.1 h.2

/-! ## The invariant along runs of the program -/

theorem integrate_inv (myid : CStr) (ds : List NodeDescriptor) (v : View) (h : v.inv) :
    (integrate myid ds v).inv := by
  induction ds generalizing v with
  | nil => exact h
  | cons d ds ih =>
    simp only [integrate]
    split_ifs
    · exact ih _ (add_descriptor_inv v d h)
    · exact ih _ h

theorem seed_loop_inv (allUsers : List NodeDescriptor) (otherIndices : List Nat) (n i : Nat)
    (v : View) (h : v.inv) : (seed_loop allUsers otherIndices n i v).inv := by
  induction n generalizing i v with
  | zero => exact h
  | succ n ih => exact ih _ _ (add_descriptor_inv v _ h)

theorem cyclon_cycle_inv (rnd : Nat → Nat) (now : Int) (s : State) (h : s.myView.inv) :
    (cyclon_cycle rnd now s).1.myView.inv := by
  unfold cyclon_cycle
  have hr1 := remove_descriptor_inv s.myView (find_oldest_descriptor s.myView) h
  have hr2 := remove_descriptor_inv _ (find_oldest_descriptor
    (add_descriptor (remove_descriptor s.myView (find_oldest_descriptor s.myView)).1
      (remove_descriptor s.myView (find_oldest_descriptor s.myView)).2).1)
    (add_descriptor_inv _ (remove_descriptor s.myView (find_oldest_descriptor s.myView)).2 hr1)
  dsimp only
  split_ifs
  all_goals first
    | exact h
    | exact hr1
    | exact hr2
    | exact select_random_descriptors_view_inv _ _ _ hr1
    | exact select_random_descriptors_view_inv _ _ _ hr2

theorem handle_push_inv (rnd : Nat → Nat) (clk : Nat → Int) (buf : CStr) (s : State)
    (h : s.myView.inv) : (handle_push rnd clk buf s).1.myView.inv := by
  unfold handle_push
  split
  · exact h
  · split
    · exact h
    · simp only []
      apply update_descriptor_inv
      apply integrate_inv
      split_ifs
      · exact select_random_descriptors_view_inv _ _ _ h
      · exact h

theorem handle_reply_inv (clk : Nat → Int) (buf : CStr) (s : State)
    (h : s.myView.inv) : (handle_reply clk buf s).1.myView.inv := by
  unfold handle_reply
  split
  · exact h
  · split
    · exact h
    · simp only []
      exact update_descriptor_inv _ _ (integrate_inv _ _ _ h)

theorem handle_gossip_view (rnd : Nat → Nat) (buf : CStr) (s : State) :
    (handle_gossip rnd buf s).1.myView = s.myView := by
  unfold handle_gossip
  simp only []
  split_ifs <;> rfl

theorem handle_input_view (rnd : Nat → Nat) (buf : CStr) (s : State) :
    (handle_input rnd buf s).1.myView = s.myView := by
  unfold handle_input
  simp only []
  split_ifs <;> rfl

theorem main_step_inv (s : State) (e : Event) (h : s.myView.inv) :
    (main_step s e).1.myView.inv := by
  cases e with
  | tick clk rnd =>
    simp only [main_step]
    split_ifs
    · exact cyclon_cycle_inv _ _ _ h
    · exact h
  | datagram buf clk rnd =>
    simp only [main_step, handle_datagram]
    split_ifs
    · exact handle_push_inv _ _ _ _ h
    · exact handle_reply_inv _ _ _ h
    · rw [handle_gossip_view]; exact h
  | input buf rnd =>
    simp only [main_step]
    rw [handle_input_view]; exact h

theorem main_run_inv (s : State) (es : List Event) (h : s.myView.inv) :
    (main_run s es).myView.inv := by
  induction es generalizing s with
  | nil => exact h
  | cons e es ih => exact ih _ (main_step_inv s e h)

theorem main_init_inv (allUsers : List NodeDescriptor) (portno : Int) (rnd : Nat → Nat)
    (junk : List NodeDescriptor) (cjunk : List CStr) (now : Int) (s : State)
    (hj : junk.length = VIEW_LENGTH)
    (h : main_init allUsers portno rnd junk cjunk now = some s) : s.myView.inv := by
  unfold main_init at h
  split_ifs at h
  split at h
  · exact absurd h (by simp)
  · simp only [Option.some.injEq] at h
    subst h
    apply seed_loop_inv
    exact ⟨⟨hj, by simp, by simp⟩, by simp [View.ids, View.entries]⟩

/-! ## Facts about the cache -/

theorem getD_set_eq {α : Type} (a : List α) (i k : Nat) (x dflt : α) (h : i < a.length) :
    (a.set i x).getD k dflt = if k = i then x else a.getD k dflt := by
  simp only [List.getD_eq_getElem?_getD, List.getElem?_set]
  split_ifs with h1 h2 h3
  · simp
  · omega
  · omega 
  · rfl

theorem shift_loop_getD {α : Type} (dflt : α) (n i k : Nat) (a : List α) (h : i + n < a.length) :
    (shift_loop dflt n i a).getD k dflt =
      if i ≤ k ∧ k < i + n then a.getD (k + 1) dflt else a.getD k dflt := by
  induction n generalizing i a with
  | zero =>
    simp only [shift_loop]
    rw [if_neg (by omega)]
  | succ n ih =>
    simp only [shift_loop]
    rw [ih (i + 1) _ (by simp; omega)]
    rw [getD_set_eq _ _ _ _ _ (by omega), getD_set_eq _ _ _ _ _ (by omega)]
    split_ifs <;> first | rfl | omega | (subst_vars; rfl)

theorem dup_loop_true (msg : CStr) (a : List CStr) (n i k : Nat) (hk : k < n)
    (h : a.getD (i + k) [] = msg) : dup_loop msg n i a = true := by
  induction n generalizing i k with
  | zero => omega
  | succ n ih =>
    simp only [dup_loop]
    split_ifs with h1
    · rfl
    · cases k with
      | zero => exact absurd h.symm h1
      | succ k => exact ih (i + 1) k (by omega) (by rw [← h]; congr 1; omega)

theorem dup_loop_false (msg : CStr) (a : List CStr) (n i : Nat)
    (h : dup_loop msg n i a = false) (k : Nat) (hk : k < n) : a.getD (i + k) [] ≠ msg := by
  intro hc
  rw [dup_loop_true msg a n i k hk hc] at h
  exact absurd h (by simp)

theorem is_duplicate_message_wf (m : CStr) (c : Cache) (h : c.wf) :
    (is_duplicate_message m c).1.wf := by
  obtain ⟨hl, h0, h1⟩ := h
  unfold is_duplicate_message
  split_ifs with hd hlt
  · exact ⟨hl, h0, h1⟩
  · refine ⟨by simp [hl], ?_, ?_⟩ <;> simp only [] <;> omega
  · exact ⟨by simp [hl, shift_loop_length], h0, h1⟩

theorem dup_loop_mem (msg : CStr) (a : List CStr) (n i : Nat)
    (h : dup_loop msg n i a = true) : ∃ k, k < n ∧ a.getD (i + k) [] = msg := by
  induction n generalizing i with
  | zero => simp [dup_loop] at h
  | succ n ih =>
    simp only [dup_loop] at h
    split_ifs at h with h1
    · exact ⟨0, by omega, h1.symm⟩
    · obtain ⟨k, hk, hm⟩ := ih (i + 1) h
      exact ⟨k + 1, by omega, by rw [← hm]; congr 1; omega⟩

theorem handle_push_cache (rnd : Nat → Nat) (clk : Nat → Int) (buf : CStr) (s : State) :
    (handle_push rnd clk buf s).1.cache = s.cache := by
  unfold handle_push
  split
  · rfl
  · split <;> rfl

theorem handle_reply_cache (clk : Nat → Int) (buf : CStr) (s : State) :
    (handle_reply clk buf s).1.cache = s.cache := by
  unfold handle_reply
  split
  · rfl
  · split <;> rfl

theorem cyclon_cycle_cache (rnd : Nat → Nat) (now : Int) (s : State) :
    (cyclon_cycle rnd now s).1.cache = s.cache := by
  unfold cyclon_cycle
  dsimp only
  split_ifs <;> rfl

/-- Every event leaves the cache alone or makes one `is_duplicate_message` call. -/
theorem main_step_cache (s : State) (e : Event) :
    (main_step s e).1.cache = s.cache ∨
      ∃ m, (main_step s e).1.cache = (is_duplicate_message m s.cache).1 := by
  cases e with
  | tick clk rnd =>
    left
    simp only [main_step]
    split_ifs
    · rw [cyclon_cycle_cache]
    · rfl
  | datagram buf clk rnd =>
    simp only [main_step, handle_datagram]
    split_ifs
    · left; exact handle_push_cache _ _ _ _
    · left; exact handle_reply_cache _ _ _
    · right
      refine ⟨buf, ?_⟩
      unfold handle_gossip
      dsimp only
      split_ifs <;> rfl
  | input buf rnd =>
    simp only [main_step, handle_input]
    split_ifs
    · left; rfl
    · left; rfl
    · left; rfl
    · right; exact ⟨_, rfl⟩

/-- C1, a defect of the PUSH handler: the integration loop skips descriptors
carrying the node's own id, but the final `update_descriptor(&myView, sender)` does
not.  Node A, started with the roster A, B, has the view [B] without its own id;
after the datagram `CYCLON_PUSH:1:A:10.0.0.9:9001:0:` the view holds the id A. -/
theorem push_inserts_self_id :
    main_init [exA, exB] 9001 (draws []) exJunk exCJunk 100 = some exStart ∧
      exStart.myDescriptor.id ∉ exStart.myView.ids ∧
      exStart.myDescriptor.id ∈
        (main_step exStart
          (Event.datagram "CYCLON_PUSH:1:A:10.0.0.9:9001:0:".toList (fun _ => 105)
            (draws []))).1.myView.ids := by
  decide

/-! ## C2: distinct ids -/

/-- C2: in every state reached from start-up by any sequence of timer checks,
datagrams and console lines, with any draws and clock values, the ids of the
live view entries are pairwise distinct; and `add_descriptor`,
`update_descriptor`, `remove_descriptor` (any index) and
`select_random_descriptors` (any count argument, any draws) each map a
well-formed view with pairwise distinct ids to one with pairwise distinct ids. -/
theorem view_ids_distinct (allUsers : List NodeDescriptor) (portno : Int) (rnd0 : Nat → Nat)
    (junk : List NodeDescriptor) (cjunk : List CStr) (now : Int) (s0 : State)
    (hj : junk.length = VIEW_LENGTH)
    (hinit : main_init allUsers portno rnd0 junk cjunk now = some s0) (es : List Event)
    (v : View) (hv : v.wf) (hn : v.ids.Nodup)
    (d : NodeDescriptor) (index k : Int) (rnd : Nat → Nat) :
    (main_run s0 es).myView.ids.Nodup ∧
      (add_descriptor v d).1.ids.Nodup ∧
      (update_descriptor v d).1.ids.Nodup ∧
      (remove_descriptor v index).1.ids.Nodup ∧
      (select_random_descriptors rnd v k).1.ids.Nodup :=
  ⟨(main_run_inv s0 es (main_init_inv allUsers portno rnd0 junk cjunk now s0 hj hinit)).2,
   (add_descriptor_inv v d ⟨hv, hn⟩).2,
   (update_descriptor_inv v d ⟨hv, hn⟩).2,
   (remove_descriptor_inv v index ⟨hv, hn⟩).2,
   (select_random_descriptors_view_inv rnd v k ⟨hv, hn⟩).2⟩

theorem view_ids_distinct_witness :
    exJunk.length = VIEW_LENGTH ∧
      main_init [exA, exB] 9001 (draws []) exJunk exCJunk 100 = some exStart ∧
      exFull.wf ∧ exFull.ids.Nodup ∧
      ((main_run exStart exRun).myView.ids.Nodup ∧
        (add_descriptor exFull exB).1.ids.Nodup ∧
        (update_descriptor exFull exB).1.ids.Nodup ∧
        (remove_descriptor exFull 1).1.ids.Nodup ∧
        (select_random_descriptors (draws [0, 0]) exFull 2).1.ids.Nodup) :=
  ⟨by decide, by decide, by decide, by decide,
   view_ids_distinct [exA, exB] 9001 (draws []) exJunk exCJunk 100 exStart (by decide)
     (by decide) exRun exFull (by decide) (by decide) exB 1 2 (draws [0, 0])⟩

/-! ## C3: capacity -/

/-- C3: in every state reached from start-up by any sequence of events
`0 ≤ count ≤ VIEW_LENGTH`; and `add_descriptor`, `update_descriptor`,
`remove_descriptor` (any index, also out of range) and
`select_random_descriptors` (any count argument, any draws) each map a view with
`0 ≤ count ≤ VIEW_LENGTH` to a view with `0 ≤ count ≤ VIEW_LENGTH`. -/
theorem view_count_bounded (allUsers : List NodeDescriptor) (portno : Int) (rnd0 : Nat → Nat)
    (junk : List NodeDescriptor) (cjunk : List CStr) (now : Int) (s0 : State)
    (hj : junk.length = VIEW_LENGTH)
    (hinit : main_init allUsers portno rnd0 junk cjunk now = some s0) (es : List Event)
    (v : View) (hv : v.wf) (d : NodeDescriptor) (index k : Int) (rnd : Nat → Nat) :
    (0 ≤ (main_run s0 es).myView.count ∧ (main_run s0 es).myView.count ≤ VIEW_LENGTH) ∧
      (0 ≤ (add_descriptor v d).1.count ∧ (add_descriptor v d).1.count ≤ VIEW_LENGTH) ∧
      (0 ≤ (update_descriptor v d).1.count ∧ (update_descriptor v d).1.count ≤ VIEW_LENGTH) ∧
      (0 ≤ (remove_descriptor v index).1.count ∧
        (remove_descriptor v index).1.count ≤ VIEW_LENGTH) ∧
      (0 ≤ (select_random_descriptors rnd v k).1.count ∧
        (select_random_descriptors rnd v k).1.count ≤ VIEW_LENGTH) :=
  ⟨(main_run_inv s0 es (main_init_inv allUsers portno rnd0 junk cjunk now s0 hj hinit)).1.2,
   (add_descriptor_wf v d hv).2,
   (update_descriptor_wf v d hv).2,
   (remove_descriptor_wf v index hv).2,
   (select_random_descriptors_inv rnd v k hv).1.2⟩

theorem view_count_bounded_witness :
    exJunk.length = VIEW_LENGTH ∧
      main_init [exA, exB] 9001 (draws []) exJunk exCJunk 100 = some exStart ∧
      exFull.wf ∧
      ((0 ≤ (main_run exStart exRun).myView.count ∧
          (main_run exStart exRun).myView.count ≤ VIEW_LENGTH) ∧
        (0 ≤ (add_descriptor exFull exB).1.count ∧
          (add_descriptor exFull exB).1.count ≤ VIEW_LENGTH) ∧
        (0 ≤ (update_descriptor exFull exB).1.count ∧
          (update_descriptor exFull exB).1.count ≤ VIEW_LENGTH) ∧
        (0 ≤ (remove_descriptor exFull (-1)).1.count ∧
          (remove_descriptor exFull (-1)).1.count ≤ VIEW_LENGTH) ∧
        (0 ≤ (select_random_descriptors (draws [0, 0, 0]) exFull 7).1.count ∧
          (select_random_descriptors (draws [0, 0, 0]) exFull 7).1.count ≤ VIEW_LENGTH)) :=
  ⟨by decide, by decide, by decide,
   view_count_bounded [exA, exB] 9001 (draws []) exJunk exCJunk 100 exStart (by decide)
     (by decide) exRun exFull (by decide) exB (-1) 7 (draws [0, 0, 0])⟩

/-! ## C4, C5: sampling -/

/-- C4, a defect of `select_random_descriptors`: `indices[]` keeps positions of
the array as it was before the removals, so a later pick can read a stale slot.
On the full view A, B, C with count argument 3 and draws 0, 0, 0 it returns
A, C, C and leaves the view empty: C is returned twice and B is lost, so the
returned descriptors and the remaining entries are no permutation of the
original entries. -/
theorem select_returns_entry_twice :
    ((select_random_descriptors (draws [0, 0, 0]) exFull 3).2 = [exA, exC, exC] ∧
      (select_random_descriptors (draws [0, 0, 0]) exFull 3).1.entries = []) ∧
      ¬ List.Perm
        ((select_random_descriptors (draws [0, 0, 0]) exFull 3).2 ++
          (select_random_descriptors (draws [0, 0, 0]) exFull 3).1.entries)
        exFull.entries := by
  decide

/-- C5, the same defect of `select_random_descriptors`: sampling 2 of the view
A, B, C is not uniform over subsets.  Of the six equally likely draw sequences
three return the subset without B, one the subset without C and two the subset
without A. -/
theorem select_two_of_three_not_uniform :
    (exDraws32.filter fun l =>
        exB ∉ (select_random_descriptors (draws l) exFull 2).2).length = 3 ∧
      (exDraws32.filter fun l =>
        exC ∉ (select_random_descriptors (draws l) exFull 2).2).length = 1 ∧
      (exDraws32.filter fun l =>
        exA ∉ (select_random_descriptors (draws l) exFull 2).2).length = 2 := by
  decide

/-! ## C6: repeat-partner suppression -/

/-- C6, a defect of the cycle's partner selection: the oldest descriptor, when it
is the last partner, is put back with `add_descriptor` (unchanged timestamp, now
at the end of the view) and `find_oldest_descriptor` is called again, which
finds the same descriptor unless another entry has exactly the same timestamp.
After the run `exRun` node A has the view [B@111, C@112] and last partner B; the
oldest entry is B; the next cycle chooses B again. -/
theorem cycle_repeats_last_partner :
    (main_run exStart exRun).myView.entries.map NodeDescriptor.id = [['B'], ['C']] ∧
      (main_run exStart exRun).last_partner.id = ['B'] ∧
      find_oldest_descriptor (main_run exStart exRun).myView = 0 ∧
      (main_step (main_run exStart exRun)
        (Event.tick (fun _ => 120) (draws []))).1.last_partner.id = ['B'] ∧
      (main_step (main_run exStart exRun)
        (Event.tick (fun _ => 120) (draws []))).2.map Packet.dest
        = [Dest.peer "10.0.0.2".toList 9002] := by
  decide

/-! ## C7: `add_descriptor` on an id already present -/

/-- C7 as stated fails on a full view: `add_descriptor` returns at its first test
`count >= VIEW_LENGTH`, before the search for the id.  On the full view A, B, C
(A stamped 100) the call with A stamped 999 leaves A's timestamp at 100. -/
theorem add_descriptor_full_no_refresh :
    exFull.wf ∧ ({ exA with timestamp := 999 } : NodeDescriptor).id ≠ [] ∧
      ({ exA with timestamp := 999 } : NodeDescriptor).id ∈ exFull.ids ∧
      ((add_descriptor exFull { exA with timestamp := 999 }).1.entries.find?
          (fun e => e.id = exA.id)).map NodeDescriptor.timestamp = some 100 ∧
      ¬ ((add_descriptor exFull { exA with timestamp := 999 }).1.entries.find?
          (fun e => e.id = exA.id)).map NodeDescriptor.timestamp = some 999 := by
  decide

/-- C7, amended: for a well-formed view that holds an entry with the non-empty id
`d.id`: when `count < VIEW_LENGTH`, `add_descriptor` returns 0, leaves the count
and the ids, addresses and ports of all entries unchanged, and afterwards the
first entry with id `d.id` carries `d.timestamp`; when the view is full it
returns 0 and leaves the view unchanged. -/
theorem add_descriptor_refresh (v : View) (d : NodeDescriptor) (hw : v.wf) (hid : d.id ≠ [])
    (hmem : d.id ∈ v.ids) :
    (v.count < VIEW_LENGTH →
      (add_descriptor v d).2 = 0 ∧
      (add_descriptor v d).1.count = v.count ∧
      (add_descriptor v d).1.ids = v.ids ∧
      (add_descriptor v d).1.entries.map NodeDescriptor.ipaddr
        = v.entries.map NodeDescriptor.ipaddr ∧
      (add_descriptor v d).1.entries.map NodeDescriptor.port = v.entries.map NodeDescriptor.port ∧
      ((add_descriptor v d).1.entries.find? (fun e => e.id = d.id)).map NodeDescriptor.timestamp
        = some d.timestamp) ∧
    (v.count = VIEW_LENGTH → add_descriptor v d = (v, 0)) := by
  obtain ⟨a, b, c, rfl | rfl | rfl | rfl⟩ := v.wf_cases hw <;>
    simp [add_descriptor, exists_loop, View.ids, View.entries, VIEW_LENGTH, rd,
      set_timestamp, hid, eq_comm (a := d.id)] at hmem ⊢
  · simp [hmem]
  · by_cases h1 : a.id = d.id
    · simp [h1]
    · have h2 : b.id = d.id := by tauto
      simp [h1, h2]

theorem add_descriptor_refresh_witness :
    (⟨[exA, exB, exC], 2⟩ : View).wf ∧ exB.id ≠ [] ∧ exB.id ∈ (⟨[exA, exB, exC], 2⟩ : View).ids ∧
      (((⟨[exA, exB, exC], 2⟩ : View).count < VIEW_LENGTH →
        (add_descriptor ⟨[exA, exB, exC], 2⟩ { exB with timestamp := 999 }).2 = 0 ∧
        (add_descriptor ⟨[exA, exB, exC], 2⟩ { exB with timestamp := 999 }).1.count = 2 ∧
        (add_descriptor ⟨[exA, exB, exC], 2⟩ { exB with timestamp := 999 }).1.ids
          = (⟨[exA, exB, exC], 2⟩ : View).ids ∧
        (add_descriptor ⟨[exA, exB, exC], 2⟩ { exB with timestamp := 999 }).1.entries.map
            NodeDescriptor.ipaddr
          = (⟨[exA, exB, exC], 2⟩ : View).entries.map NodeDescriptor.ipaddr ∧
        (add_descriptor ⟨[exA, exB, exC], 2⟩ { exB with timestamp := 999 }).1.entries.map
            NodeDescriptor.port
          = (⟨[exA, exB, exC], 2⟩ : View).entries.map NodeDescriptor.port ∧
        ((add_descriptor ⟨[exA, exB, exC], 2⟩ { exB with timestamp := 999 }).1.entries.find?
            (fun e => e.id = exB.id)).map NodeDescriptor.timestamp = some 999) ∧
      ((⟨[exA, exB, exC], 2⟩ : View).count = VIEW_LENGTH →
        add_descriptor ⟨[exA, exB, exC], 2⟩ { exB with timestamp := 999 }
          = (⟨[exA, exB, exC], 2⟩, 0))) :=
  ⟨by decide, by decide, by decide,
   add_descriptor_refresh ⟨[exA, exB, exC], 2⟩ { exB with timestamp := 999 } (by decide)
     (by decide) (by decide)⟩

/-! ## C8: malformed protocol datagrams -/

theorem push_tag_eq : "CYCLON_PUSH:".toList = ['C','Y','C','L','O','N','_','P','U','S','H',':'] := rfl
theorem reply_tag_eq : "CYCLON_REPLY:".toList = ['C','Y','C','L','O','N','_','R','E','P','L','Y',':'] := rfl

theorem strtok_colons (rest : CStr) (h : ∀ c ∈ rest, c = ':') : strtok rest = none := by
  have : rest.dropWhile (fun c => decide (c = ':')) = [] := by
    rw [List.dropWhile_eq_nil_iff]
    intro c hc; simp [h c hc]
  simp [strtok, this]

theorem strtok_push_tag (rest : CStr) :
    strtok ("CYCLON_PUSH:".toList ++ rest) = some ("CYCLON_PUSH".toList, rest) := by
  rw [push_tag_eq]
  simp [strtok, List.dropWhile, List.takeWhile]

theorem strtok_reply_tag (rest : CStr) :
    strtok ("CYCLON_REPLY:".toList ++ rest) = some ("CYCLON_REPLY".toList, rest) := by
  rw [reply_tag_eq]
  simp [strtok, List.dropWhile, List.takeWhile]

theorem handle_datagram_push (rnd : Nat → Nat) (clk : Nat → Int) (rest : CStr) (s : State) :
    handle_datagram rnd clk ("CYCLON_PUSH:".toList ++ rest) s
      = handle_push rnd clk ("CYCLON_PUSH:".toList ++ rest) s := by
  unfold handle_datagram
  rw [if_pos]
  rw [push_tag_eq]; simp [List.isPrefixOf]

theorem handle_datagram_reply (rnd : Nat → Nat) (clk : Nat → Int) (rest : CStr) (s : State) :
    handle_datagram rnd clk ("CYCLON_REPLY:".toList ++ rest) s
      = handle_reply clk ("CYCLON_REPLY:".toList ++ rest) s := by
  unfold handle_datagram
  rw [if_neg, if_pos]
  · rw [reply_tag_eq]; simp [List.isPrefixOf]
  · rw [reply_tag_eq, push_tag_eq]; simp [List.isPrefixOf]

/-- C8, amended: a datagram beginning with `CYCLON_PUSH:` or `CYCLON_REPLY:` never
changes the message cache; and when nothing but `:` characters follows the
prefix (no count token) it is dropped: the state is unchanged and nothing is sent. -/
theorem protocol_datagram_effect (rnd : Nat → Nat) (clk : Nat → Int) (rest : CStr) (s : State) :
    (handle_datagram rnd clk ("CYCLON_PUSH:".toList ++ rest) s).1.cache = s.cache ∧
      (handle_datagram rnd clk ("CYCLON_REPLY:".toList ++ rest) s).1.cache = s.cache ∧
      ((∀ c ∈ rest, c = ':') →
        handle_datagram rnd clk ("CYCLON_PUSH:".toList ++ rest) s = (s, []) ∧
        handle_datagram rnd clk ("CYCLON_REPLY:".toList ++ rest) s = (s, [])) := by
  rw [handle_datagram_push, handle_datagram_reply]
  refine ⟨handle_push_cache _ _ _ _, handle_reply_cache _ _ _, fun h => ⟨?_, ?_⟩⟩
  · unfold handle_push
    rw [strtok_push_tag]
    simp only [strtok_colons rest h]
  · unfold handle_reply
    rw [strtok_reply_tag]
    simp only [strtok_colons rest h]


theorem protocol_datagram_effect_witness :
    (∀ c ∈ "::".toList, c = ':') ∧
      ((handle_datagram (draws []) (fun _ => 105) ("CYCLON_PUSH:".toList ++ "::".toList)
          exStart).1.cache = exStart.cache ∧
        (handle_datagram (draws []) (fun _ => 105) ("CYCLON_REPLY:".toList ++ "::".toList)
          exStart).1.cache = exStart.cache ∧
        ((∀ c ∈ "::".toList, c = ':') →
          handle_datagram (draws []) (fun _ => 105) ("CYCLON_PUSH:".toList ++ "::".toList) exStart
            = (exStart, []) ∧
          handle_datagram (draws []) (fun _ => 105) ("CYCLON_REPLY:".toList ++ "::".toList) exStart
            = (exStart, []))) :=
  ⟨by decide, protocol_datagram_effect (draws []) (fun _ => 105) "::".toList exStart⟩

/-- C8 as stated fails: the only datagram the handlers drop is one without a count
token.  With view [B]: a PUSH with the non-numeric count `abc` still runs the
reply sampling and empties the view; a PUSH announcing 5 groups but carrying one
has that group integrated; a REPLY with a truncated second group still
re-inserts the last partner. -/
theorem malformed_push_changes_view :
    exStart.myView.entries = [exB] ∧
      (handle_datagram (draws []) (fun _ => 105) "CYCLON_PUSH:abc:".toList exStart).1.myView.entries
        = [] ∧
      (handle_datagram (draws []) (fun _ => 105) "CYCLON_PUSH:5:onlyid:1.2.3.4:42:0:".toList
        exStart).1.myView.entries = [⟨"onlyid".toList, "1.2.3.4".toList, 42, 105⟩] ∧
      (handle_datagram (draws []) (fun _ => 105) "CYCLON_REPLY:2:X:1.2.3.4:".toList
        { exStart with last_partner := exC }).1.myView.entries
        = [exB, { exC with timestamp := 105 }] := by
  decide

/-! ## C9: self-echo suppression -/

theorem strtok_token_ne_nil (s t r : CStr) (h : strtok s = some (t, r)) : t ≠ [] := by
  unfold strtok at h
  dsimp only at h
  split_ifs at h with h1
  simp only [Option.some.injEq, Prod.mk.injEq] at h
  obtain ⟨ht, _⟩ := h
  rw [← ht]
  cases hs : s.dropWhile (fun c => decide (c = ':')) with
  | nil => exact absurd hs h1
  | cons c cs =>
    have := List.head_dropWhile_not (fun c => decide (c = ':')) s (by rw [hs]; simp)
    simp only [hs, List.head_cons] at this
    simp [List.takeWhile_cons, this]

theorem parse_loop_keeps (clk : Nat → Int) (n i : Nat) (p : ParseState) (hi : 0 < i) :
    (parse_loop clk n i p).sender = p.sender ∧
      ∃ more, (parse_loop clk n i p).received = p.received ++ more := by
  induction n generalizing i p with
  | zero => exact ⟨rfl, [], by simp [parse_loop]⟩
  | succ n ih =>
    have stop : p.sender = p.sender ∧ ∃ more, p.received = p.received ++ more :=
      ⟨rfl, [], by simp⟩
    unfold parse_loop
    by_cases hlen : p.received.length < VIEW_LENGTH
    · rw [if_pos hlen]
      rcases strtok p.rest with _ | ⟨id, r1⟩
      · exact stop
      dsimp only
      rcases strtok r1 with _ | ⟨ip, r2⟩
      · exact stop
      dsimp only
      rcases strtok r2 with _ | ⟨port, r3⟩
      · exact stop
      dsimp only
      rcases strtok r3 with _ | ⟨ts, r4⟩
      · exact stop
      dsimp only
      by_cases hv : id.length > 0 ∧ atoi port > 0
      · rw [if_pos hv, if_neg (Nat.pos_iff_ne_zero.mp hi)]
        obtain ⟨e1, more, e2⟩ := ih (i + 1)
          { rest := r4,
            received := p.received ++
              [{ id := id, ipaddr := ip, port := atoi port, timestamp := clk p.received.length }],
            sender := p.sender } (Nat.succ_pos i)
        refine ⟨e1, (⟨id, ip, atoi port, clk p.received.length⟩ : NodeDescriptor) :: more, ?_⟩
        rw [e2]; simp
      · rw [if_neg hv]
        exact ih (i + 1) { p with rest := r4 } (Nat.succ_pos i)
    · rw [if_neg hlen]
      exact stop

theorem add_descriptor_mem_ids (v : View) (d : NodeDescriptor) (x : CStr) (hw : v.wf)
    (hx : x ∈ v.ids) : x ∈ (add_descriptor v d).1.ids := by
  obtain ⟨a, b, c, rfl | rfl | rfl | rfl⟩ := v.wf_cases hw <;>
    simp [add_descriptor, exists_loop, View.ids, View.entries, VIEW_LENGTH, rd,
      set_timestamp] at hx ⊢ <;>
    (try split_ifs) <;> first | tauto | (simp [hx]; done) | (simp [hx]; tauto)

theorem add_descriptor_adds (v : View) (d : NodeDescriptor) (hw : v.wf)
    (hc : v.count < VIEW_LENGTH) (hid : d.id ≠ []) : d.id ∈ (add_descriptor v d).1.ids := by
  obtain ⟨a, b, c, rfl | rfl | rfl | rfl⟩ := v.wf_cases hw <;>
    simp [add_descriptor, exists_loop, View.ids, View.entries, VIEW_LENGTH, rd,
      set_timestamp, hid] at hc ⊢ <;>
    split_ifs <;> simp [*]

theorem update_descriptor_refresh (v : View) (d : NodeDescriptor) (hw : v.wf) (hid : d.id ≠ [])
    (hmem : d.id ∈ v.ids) :
    ∃ e ∈ (update_descriptor v d).1.entries, e.id = d.id ∧ e.timestamp = d.timestamp := by
  obtain ⟨a, b, c, rfl | rfl | rfl | rfl⟩ := v.wf_cases hw <;>
    simp [update_descriptor, exists_loop, View.ids, View.entries, VIEW_LENGTH, rd,
      set_timestamp, hid, eq_comm (a := d.id)] at hmem ⊢
  · simp [hmem]
  · by_cases h1 : a.id = d.id
    · simp [h1]
    · have h2 : b.id = d.id := by tauto
      simp [h1, h2]
  · by_cases h1 : a.id = d.id
    · simp [h1]
    · by_cases h2 : b.id = d.id
      · simp [h1, h2]
      · have h3 : c.id = d.id := by tauto
        simp [h1, h2, h3]

theorem integrate_wf (myid : CStr) (ds : List NodeDescriptor) (v : View) (h : v.wf) :
    (integrate myid ds v).wf := by
  induction ds generalizing v with
  | nil => exact h
  | cons d ds ih =>
    simp only [integrate]
    split_ifs
    · exact ih _ (add_descriptor_wf v d h)
    · exact ih _ h

theorem integrate_mem_ids (myid : CStr) (ds : List NodeDescriptor) (v : View) (x : CStr)
    (h : v.wf) (hx : x ∈ v.ids) : x ∈ (integrate myid ds v).ids := by
  induction ds generalizing v with
  | nil => exact hx
  | cons d ds ih =>
    simp only [integrate]
    split_ifs
    · exact ih _ (add_descriptor_wf v d h) (add_descriptor_mem_ids v d x h hx)
    · exact ih _ h hx


theorem parse_loop_first (clk : Nat → Int) (n : Nat) (id ip port ts r1 r2 r3 r4 r5 : CStr)
    (h2 : strtok r1 = some (id, r2)) (h3 : strtok r2 = some (ip, r3))
    (h4 : strtok r3 = some (port, r4)) (h5 : strtok r4 = some (ts, r5))
    (hport : 0 < atoi port) :
    (parse_loop clk (n + 1) 0 { rest := r1, received := [], sender := NodeDescriptor.zero }).sender
        = ⟨id, ip, atoi port, clk 0⟩ ∧
      ∃ more,
        (parse_loop clk (n + 1) 0
          { rest := r1, received := [], sender := NodeDescriptor.zero }).received
          = ⟨id, ip, atoi port, clk 0⟩ :: more := by
  have hid : id.length > 0 := List.length_pos.mpr (strtok_token_ne_nil _ _ _ h2)
  have hstep : parse_loop clk (n + 1) 0 { rest := r1, received := [], sender := NodeDescriptor.zero }
      = parse_loop clk n 1
          { rest := r5, received := [⟨id, ip, atoi port, clk 0⟩],
            sender := ⟨id, ip, atoi port, clk 0⟩ } := by
    rw [parse_loop]
    simp [h2, h3, h4, h5, hid, hport, VIEW_LENGTH]
  rw [hstep]
  obtain ⟨e1, more, e2⟩ := parse_loop_keeps clk n 1
    { rest := r5, received := [⟨id, ip, atoi port, clk 0⟩],
      sender := ⟨id, ip, atoi port, clk 0⟩ } (by omega)
  exact ⟨e1, more, by rw [e2]; rfl⟩

theorem integrate_then_update (myid : CStr) (d : NodeDescriptor) (more : List NodeDescriptor)
    (w : View) (hw : w.wf) (hc : w.count < VIEW_LENGTH) (hid : d.id ≠ []) (hself : d.id ≠ myid) :
    ∃ e ∈ (update_descriptor (integrate myid (d :: more) w) d).1.entries,
      e.id = d.id ∧ e.timestamp = d.timestamp := by
  apply update_descriptor_refresh _ _ (integrate_wf _ _ _ hw) hid
  simp only [integrate, if_pos hself]
  exact integrate_mem_ids _ _ _ _ (add_descriptor_wf w d hw) (add_descriptor_adds w d hw hc hid)

/-- When no copy of the extraction loop overflows (`parse_overflow`), every
descriptor the loop stores has an id and an address that fit the 50-byte fields
of `NodeDescriptor`: on such datagrams `parse_loop` stores what the C loop stores. -/
theorem parse_loop_fits (clk : Nat → Int) (n i : Nat) (p : ParseState)
    (hp : ∀ d ∈ p.received, d.id.length < 50 ∧ d.ipaddr.length < 50)
    (hf : parse_overflow n p.rest p.received.length = false) :
    ∀ d ∈ (parse_loop clk n i p).received, d.id.length < 50 ∧ d.ipaddr.length < 50 := by
  induction n generalizing i p with
  | zero => simpa [parse_loop] using hp
  | succ n ih =>
    revert hf
    unfold parse_loop parse_overflow
    by_cases hlen : p.received.length < VIEW_LENGTH
    · rw [if_pos hlen, if_pos hlen]
      rcases strtok p.rest with _ | ⟨id, r1⟩
      · exact fun _ => hp
      dsimp only
      by_cases h1 : 50 ≤ id.length
      · rw [if_pos h1]; intro h; exact absurd h (by simp)
      rw [if_neg h1]
      rcases strtok r1 with _ | ⟨ip, r2⟩
      · exact fun _ => hp
      dsimp only
      by_cases h2 : 50 ≤ ip.length
      · rw [if_pos h2]; intro h; exact absurd h (by simp)
      rw [if_neg h2]
      rcases strtok r2 with _ | ⟨port, r3⟩
      · exact fun _ => hp
      dsimp only
      rcases strtok r3 with _ | ⟨ts, r4⟩
      · exact fun _ => hp
      dsimp only
      by_cases hv : id.length > 0 ∧ atoi port > 0
      · rw [if_pos hv, if_pos hv]
        intro hf
        apply ih
        · intro d hd
          rcases List.mem_append.mp hd with h | h
          · exact hp d h
          · rw [List.mem_singleton] at h
            subst h
            exact ⟨by simpa using h1, by simpa using h2⟩
        · simpa using hf
      · rw [if_neg hv, if_neg hv]
        intro hf
        exact ih _ _ hp hf
    · rw [if_neg hlen, if_neg hlen]
      exact fun _ => hp

/-- The first `strcpy` of the loop: a datagram whose copies do not overflow has a
first id token shorter than 50 bytes. -/
theorem parse_overflow_first (n : Nat) (r1 id r2 : CStr) (h2 : strtok r1 = some (id, r2))
    (hf : parse_overflow (n + 1) r1 0 = false) : id.length < 50 := by
  unfold parse_overflow at hf
  rw [if_pos (by decide), h2] at hf
  dsimp only at hf
  by_contra hcon
  rw [if_pos (by omega)] at hf
  exact absurd hf (by simp)

/-- C10, amended: for every well-formed responder view and every datagram
`CYCLON_PUSH:` followed by a count token of value at least 1 and the four tokens
id, address, port, timestamp of a first group, with port value above 0 and id
different from the responder's own, in which no id or address token that the
handler copies is 50 bytes or longer (`parse_overflow`), for any draws: after the
handler the view holds an entry with that id, which fits the 50-byte id field,
whose timestamp is the responder's clock reading taken when the group was parsed
(`clk 0`). -/
theorem push_sender_present (rnd : Nat → Nat) (clk : Nat → Int) (s : State)
    (rest cnt id ip port ts r1 r2 r3 r4 r5 : CStr)
    (hw : s.myView.wf)
    (h1 : strtok rest = some (cnt, r1)) (h2 : strtok r1 = some (id, r2))
    (h3 : strtok r2 = some (ip, r3)) (h4 : strtok r3 = some (port, r4))
    (h5 : strtok r4 = some (ts, r5))
    (hcnt : 0 < atoi cnt) (hport : 0 < atoi port) (hself : id ≠ s.myDescriptor.id)
    (hfit : parse_overflow (atoi cnt).toNat r1 0 = false) :
    ∃ e ∈ (main_step s (Event.datagram ("CYCLON_PUSH:".toList ++ rest) clk rnd)).1.myView.entries,
      e.id = id ∧ e.timestamp = clk 0 ∧ e.id.length < 50 := by
  obtain ⟨n, hn⟩ : ∃ n, (atoi cnt).toNat = n + 1 := ⟨(atoi cnt).toNat - 1, by omega⟩
  obtain ⟨hs, more, hr⟩ := parse_loop_first clk n id ip port ts r1 r2 r3 r4 r5 h2 h3 h4 h5 hport
  have hid : id ≠ [] := strtok_token_ne_nil _ _ _ h2
  have hlen : id.length < 50 := by
    rw [hn] at hfit
    exact parse_overflow_first n r1 id r2 h2 hfit
  have key : ∃ e ∈ (main_step s
      (Event.datagram ("CYCLON_PUSH:".toList ++ rest) clk rnd)).1.myView.entries,
      e.id = id ∧ e.timestamp = clk 0 := by
    simp only [main_step]
    rw [handle_datagram_push]
    unfold handle_push
    rw [strtok_push_tag]
    simp only [h1, hn, hs, hr]
    have hsel := select_random_descriptors_inv rnd s.myView SWAP_LENGTH hw
    have hb := hw.2
    apply integrate_then_update _ (⟨id, ip, atoi port, clk 0⟩ : NodeDescriptor) more _ _ _ hid hself
    · split_ifs
      · exact hsel.1
      · exact hw
    · split_ifs with hpos
      · rw [hsel.2.2.1]; simp only [VIEW_LENGTH, SWAP_LENGTH] at hb ⊢; omega
      · simp only [VIEW_LENGTH] at hb ⊢; omega
  obtain ⟨e, he, h6, h7⟩ := key
  exact ⟨e, he, h6, h7, h6 ▸ hlen⟩

theorem push_sender_present_witness :
    exStart.myView.wf ∧
      strtok "1:C:10.0.0.3:9003:0:".toList = some ("1".toList, "C:10.0.0.3:9003:0:".toList) ∧
      strtok "C:10.0.0.3:9003:0:".toList = some ("C".toList, "10.0.0.3:9003:0:".toList) ∧
      strtok "10.0.0.3:9003:0:".toList = some ("10.0.0.3".toList, "9003:0:".toList) ∧
      strtok "9003:0:".toList = some ("9003".toList, "0:".toList) ∧
      strtok "0:".toList = some ("0".toList, []) ∧
      0 < atoi "1".toList ∧ 0 < atoi "9003".toList ∧ "C".toList ≠ exStart.myDescriptor.id ∧
      parse_overflow (atoi "1".toList).toNat "C:10.0.0.3:9003:0:".toList 0 = false ∧
      ∃ e ∈ (main_step exStart
          (Event.datagram ("CYCLON_PUSH:".toList ++ "1:C:10.0.0.3:9003:0:".toList)
            (fun _ => 112) (draws [1, 0]))).1.myView.entries,
        e.id = "C".toList ∧ e.timestamp = (fun _ => (112 : Int)) 0 ∧ e.id.length < 50 :=
  ⟨by decide, by decide, by decide, by decide, by decide, by decide, by decide, by decide,
   by decide, by decide,
   push_sender_present (draws [1, 0]) (fun _ => 112) exStart "1:C:10.0.0.3:9003:0:".toList
     "1".toList "C".toList "10.0.0.3".toList "9003".toList "0".toList
     "C:10.0.0.3:9003:0:".toList "10.0.0.3:9003:0:".toList "9003:0:".toList "0:".toList []
     (by decide) (by decide) (by decide) (by decide) (by decide) (by decide) (by decide)
     (by decide) (by decide) (by decide)⟩

/-- C10 as stated fails when the handler never reads the first group.  The
responder A has the view [B].  In `CYCLON_PUSH:0:C:10.0.0.3:9003:0:` the first
group C is complete, with a non-empty id other than A and port 9003, but the
count token is 0: the extraction loop `for (i = 0; i < count ..` does not run,
`sender` stays zeroed and `update_descriptor` refuses its empty id.  In
`CYCLON_PUSH:1:C:10.0.0.3:9003` the group has no timestamp token and the loop
leaves at `if (!token) break;`.  Either way the reply sampling has emptied the
view and C is not in it. -/
theorem push_unread_group_omits_sender :
    (strtok "0:C:10.0.0.3:9003:0:".toList = some ("0".toList, "C:10.0.0.3:9003:0:".toList) ∧
        strtok "C:10.0.0.3:9003:0:".toList = some ("C".toList, "10.0.0.3:9003:0:".toList) ∧
        strtok "10.0.0.3:9003:0:".toList = some ("10.0.0.3".toList, "9003:0:".toList) ∧
        strtok "9003:0:".toList = some ("9003".toList, "0:".toList) ∧
        "C".toList ≠ [] ∧ 0 < atoi "9003".toList ∧ "C".toList ≠ exStart.myDescriptor.id ∧
        (main_step exStart
          (Event.datagram ("CYCLON_PUSH:".toList ++ "0:C:10.0.0.3:9003:0:".toList)
            (fun _ => 112) (draws [1, 0]))).1.myView.entries = []) ∧
      (strtok "1:C:10.0.0.3:9003".toList = some ("1".toList, "C:10.0.0.3:9003".toList) ∧
        strtok "C:10.0.0.3:9003".toList = some ("C".toList, "10.0.0.3:9003".toList) ∧
        strtok "10.0.0.3:9003".toList = some ("10.0.0.3".toList, "9003".toList) ∧
        strtok "9003".toList = some ("9003".toList, []) ∧
        (main_step exStart
          (Event.datagram ("CYCLON_PUSH:".toList ++ "1:C:10.0.0.3:9003".toList)
            (fun _ => 112) (draws [1, 0]))).1.myView.entries = []) := by
  decide

/-- A first id token of 50 bytes is copied past the end of `char id[50]`. -/
theorem parse_overflow_long_id :
    parse_overflow 1 (List.replicate 50 'a' ++ ":10.0.0.3:9003:0:".toList) 0 = true := by
  decide

theorem find_oldest_loop_spec (a : List NodeDescriptor) (n i idx : Nat) (t : Int)
    (hidx : idx < i) (ht : t = (rd a idx).timestamp)
    (hmin : ∀ j, j < i → t ≤ (rd a j).timestamp)
    (hfirst : ∀ j, j < idx → t < (rd a j).timestamp) :
    find_oldest_loop a n i idx t < i + n ∧
      (∀ j, j < i + n →
        (rd a (find_oldest_loop a n i idx t)).timestamp ≤ (rd a j).timestamp) ∧
      (∀ j, j < find_oldest_loop a n i idx t →
        (rd a (find_oldest_loop a n i idx t)).timestamp < (rd a j).timestamp) := by
  induction n generalizing i idx t with
  | zero =>
    simp only [find_oldest_loop, Nat.add_zero]
    exact ⟨hidx, fun j hj => ht ▸ hmin j hj, fun j hj => ht ▸ hfirst j hj⟩
  | succ n ih =>
    simp only [find_oldest_loop]
    split_ifs with hlt
    · have := ih (i + 1) i (rd a i).timestamp (by omega) rfl
        (fun j hj => by
          rcases Nat.lt_succ_iff_lt_or_eq.mp hj with h | h
          · have := hmin j h; omega
          · subst h; exact le_refl _)
        (fun j hj => by have := hmin j hj; omega)
      rw [show i + (n + 1) = i + 1 + n by omega]
      exact this
    · have := ih (i + 1) idx t (by omega) ht
        (fun j hj => by
          rcases Nat.lt_succ_iff_lt_or_eq.mp hj with h | h
          · exact hmin j h
          · subst h; omega)
        hfirst
      rw [show i + (n + 1) = i + 1 + n by omega]
      exact this

/-- On a non-empty view `find_oldest_descriptor` returns the lowest position that
holds the minimal timestamp. -/
theorem find_oldest_descriptor_eq (v : View) (h : 0 < v.count) :
    ∃ i : Nat, find_oldest_descriptor v = i ∧ (i : Int) < v.count ∧
      (∀ j : Nat, (j : Int) < v.count →
        (rd v.descriptors i).timestamp ≤ (rd v.descriptors j).timestamp) ∧
      (∀ j : Nat, j < i →
        (rd v.descriptors i).timestamp < (rd v.descriptors j).timestamp) := by
  have hs := find_oldest_loop_spec v.descriptors (v.count - 1).toNat 1 0
    (rd v.descriptors 0).timestamp (by omega) rfl
    (fun j hj => by have : j = 0 := by omega
                    subst this; exact le_refl _)
    (fun j hj => by omega)
  refine ⟨_, ?_, ?_, ?_, hs.2.2⟩
  · simp only [find_oldest_descriptor]; rw [if_neg (by omega)]
  · omega
  · intro j hj; exact hs.2.1 j (by omega)

/-! ## C11: `find_oldest_descriptor` -/

/-- C11: on a non-empty view `find_oldest_descriptor` returns an index `i` with
`0 ≤ i < count` whose timestamp is at most that of every entry and strictly below
that of every entry at a lower index (first minimum); on an empty view it
returns -1. -/
theorem find_oldest_first_minimum (v : View) :
    (v.count = 0 → find_oldest_descriptor v = -1) ∧
      (0 < v.count →
        ∃ i : Nat, find_oldest_descriptor v = i ∧ (i : Int) < v.count ∧
          (∀ j : Nat, (j : Int) < v.count →
            (rd v.descriptors i).timestamp ≤ (rd v.descriptors j).timestamp) ∧
          (∀ j : Nat, j < i →
            (rd v.descriptors i).timestamp < (rd v.descriptors j).timestamp)) :=
  ⟨fun h => by simp [find_oldest_descriptor, h], find_oldest_descriptor_eq v⟩

theorem find_oldest_first_minimum_witness :
    (exAges.count ≠ 0 ∧ 0 < exAges.count) ∧
      ∃ i : Nat, find_oldest_descriptor exAges = i ∧ (i : Int) < exAges.count ∧
        (∀ j : Nat, (j : Int) < exAges.count →
          (rd exAges.descriptors i).timestamp ≤ (rd exAges.descriptors j).timestamp) ∧
        (∀ j : Nat, j < i →
          (rd exAges.descriptors i).timestamp < (rd exAges.descriptors j).timestamp) :=
  ⟨by decide, (find_oldest_first_minimum exAges).2 (by decide)⟩

/-! ## C12: the cycle's partner -/

theorem rd_mem_entries (v : View) (i : Nat) (hw : v.wf) (hi : (i : Int) < v.count) :
    rd v.descriptors i ∈ v.entries := by
  obtain ⟨hl, h0, h3⟩ := hw
  have hk : i < v.descriptors.length := by rw [hl]; omega
  rw [View.entries, List.mem_iff_getElem]
  refine ⟨i, by simp; omega, ?_⟩
  rw [List.getElem_take, rd, List.getD_eq_getElem _ _ hk]

theorem mem_entries_iff_rd (v : View) (e : NodeDescriptor) (hw : v.wf) :
    e ∈ v.entries ↔ ∃ i : Nat, (i : Int) < v.count ∧ rd v.descriptors i = e := by
  constructor
  · intro h
    rw [View.entries, List.mem_iff_getElem] at h
    obtain ⟨i, hi, he⟩ := h
    simp only [List.length_take, lt_min_iff] at hi
    refine ⟨i, by omega, ?_⟩
    rw [List.getElem_take] at he
    rw [rd, List.getD_eq_getElem _ _ hi.2]
    exact he
  · rintro ⟨i, hi, rfl⟩
    exact rd_mem_entries v i hw hi

/-- Removing the oldest entry returns an entry of minimal timestamp. -/
theorem remove_oldest_min (v : View) (hw : v.wf) (hc : 0 < v.count) :
    (remove_descriptor v (find_oldest_descriptor v)).2 ∈ v.entries ∧
      (∀ e ∈ v.entries,
        (remove_descriptor v (find_oldest_descriptor v)).2.timestamp ≤ e.timestamp) ∧
      (remove_descriptor v (find_oldest_descriptor v)).1.count = v.count - 1 := by
  obtain ⟨i, hi, hlt, hmin, _⟩ := find_oldest_descriptor_eq v hc
  rw [hi, remove_descriptor_eq, if_neg (by omega)]
  simp only [Int.toNat_ofNat]
  refine ⟨rd_mem_entries v i hw hlt, ?_, rfl⟩
  intro e he
  obtain ⟨j, hj, rfl⟩ := (mem_entries_iff_rd v e hw).mp he
  exact hmin j hj

theorem add_descriptor_min (v : View) (d : NodeDescriptor) (x : Int) (hw : v.wf)
    (hd : ∀ e ∈ v.entries, d.timestamp ≤ e.timestamp)
    (hx : ∀ e ∈ (add_descriptor v d).1.entries, x ≤ e.timestamp) :
    ∀ e ∈ v.entries, x ≤ e.timestamp := by
  obtain ⟨a, b, c, rfl | rfl | rfl | rfl⟩ := v.wf_cases hw <;>
    simp [add_descriptor, exists_loop, View.entries, VIEW_LENGTH, rd, set_timestamp] at hd hx ⊢
  · revert hx; split_ifs <;> simp <;> omega
  · revert hx; split_ifs <;> simp <;> omega
  · exact hx

theorem add_descriptor_ids (v : View) (d : NodeDescriptor) (y : CStr) (hw : v.wf)
    (hy : y ∈ (add_descriptor v d).1.ids) : y ∈ v.ids ∨ y = d.id := by
  obtain ⟨a, b, c, rfl | rfl | rfl | rfl⟩ := v.wf_cases hw <;>
    simp [add_descriptor, exists_loop, View.ids, View.entries, VIEW_LENGTH, rd,
      set_timestamp] at hy ⊢
  · revert hy; split_ifs <;> simp
  · revert hy; split_ifs <;> simp <;> tauto
  · revert hy; split_ifs <;> simp <;> tauto
  · exact Or.inl hy

theorem add_descriptor_count_le (v : View) (d : NodeDescriptor) :
    v.count ≤ (add_descriptor v d).1.count := by
  unfold add_descriptor
  split_ifs
  · exact le_refl _
  · exact le_refl _
  · split
    · exact le_refl _
    · simp only []; omega


theorem cyclon_cycle_partner (rnd : Nat → Nat) (now : Int) (s : State) (hc : 0 < s.myView.count) :
    (cyclon_cycle rnd now s).1.last_partner = (select_partner s.myView s.last_partner).2 ∧
      (cyclon_cycle rnd now s).2.map Packet.dest =
        [Dest.peer (select_partner s.myView s.last_partner).2.ipaddr
          (select_partner s.myView s.last_partner).2.port] := by
  obtain ⟨i, hi, _⟩ := find_oldest_descriptor_eq s.myView hc
  have h0 : find_oldest_descriptor s.myView ≥ 0 := by rw [hi]; exact Int.natCast_nonneg _
  unfold cyclon_cycle select_partner
  dsimp only
  rw [if_pos hc, if_pos h0]
  split_ifs <;> exact ⟨rfl, rfl⟩

/-- The partner chosen by `select_partner`: an id of the view; of minimal timestamp
in the view, or, when the oldest entry carries the last partner's id and another
entry exists, of minimal timestamp among the entries other than that oldest one. -/
theorem select_partner_oldest (v : View) (lp : NodeDescriptor) (hw : v.wf) (hc : 0 < v.count) :
    (select_partner v lp).2.id ∈ v.ids ∧
      ((∀ e ∈ v.entries, (select_partner v lp).2.timestamp ≤ e.timestamp) ∨
        ((remove_descriptor v (find_oldest_descriptor v)).2.id = lp.id ∧ 1 < v.count ∧
          ∀ e ∈ (remove_descriptor v (find_oldest_descriptor v)).1.entries,
            (select_partner v lp).2.timestamp ≤ e.timestamp)) := by
  obtain ⟨hP, hmin, hcnt⟩ := remove_oldest_min v hw hc
  have hw1 := remove_descriptor_wf v (find_oldest_descriptor v) hw
  have hsub := remove_descriptor_sublist v (find_oldest_descriptor v) hw
  unfold select_partner
  split_ifs with hsup
  · have hw2 := add_descriptor_wf _ (remove_descriptor v (find_oldest_descriptor v)).2 hw1
    have hc2 : 0 < (add_descriptor (remove_descriptor v (find_oldest_descriptor v)).1
        (remove_descriptor v (find_oldest_descriptor v)).2).1.count :=
      lt_of_lt_of_le hsup.2 (add_descriptor_count_le _ _)
    obtain ⟨hQ, hmin2, _⟩ := remove_oldest_min _ hw2 hc2
    constructor
    · rcases add_descriptor_ids _ _ _ hw1 (List.mem_map_of_mem NodeDescriptor.id hQ) with h | h
      · exact (List.Sublist.map NodeDescriptor.id hsub).subset h
      · rw [h]; exact List.mem_map_of_mem NodeDescriptor.id hP
    · right
      refine ⟨hsup.1, by omega, ?_⟩
      exact add_descriptor_min _ _ _ hw1 (fun e he => hmin e (hsub.subset he)) hmin2
  · exact ⟨List.mem_map_of_mem NodeDescriptor.id hP, Or.inl hmin⟩


theorem rd_mem_remove_at (v : View) (i j : Nat) (hw : v.wf) (hi : (i : Int) < v.count)
    (hj : (j : Int) < v.count) (hij : j ≠ i) : rd v.descriptors j ∈ (remove_at v i).entries := by
  obtain ⟨a, b, c, rfl | rfl | rfl | rfl⟩ := v.wf_cases hw <;>
    simp only [] at hi hj <;>
    (have hi3 : i = 0 ∨ i = 1 ∨ i = 2 := by omega) <;>
    (have hj3 : j = 0 ∨ j = 1 ∨ j = 2 := by omega) <;>
    rcases hi3 with rfl | rfl | rfl <;> rcases hj3 with rfl | rfl | rfl <;>
    first
      | omega
      | exact absurd rfl hij
      | simp [remove_at, shift_loop, View.entries, rd]

/-- C12: for every well-formed non-empty view and every last partner, the cycle
sends its PUSH to the recorded partner, whose id is an id of the pre-cycle view
and which either has the minimal timestamp (maximal age) of the pre-cycle view
or, only when the oldest entry carries the last partner's id and the view has
more than one entry, has the minimal timestamp among the entries other than that
oldest one; so no two entries of the pre-cycle view are older than the partner. -/
theorem cycle_partner_oldest (rnd : Nat → Nat) (now : Int) (s : State)
    (hw : s.myView.wf) (hc : 0 < s.myView.count) :
    (cyclon_cycle rnd now s).2.map Packet.dest =
        [Dest.peer (cyclon_cycle rnd now s).1.last_partner.ipaddr
          (cyclon_cycle rnd now s).1.last_partner.port] ∧
      (cyclon_cycle rnd now s).1.last_partner.id ∈ s.myView.ids ∧
      ((∀ e ∈ s.myView.entries, (cyclon_cycle rnd now s).1.last_partner.timestamp ≤ e.timestamp) ∨
        ((remove_descriptor s.myView (find_oldest_descriptor s.myView)).2.id = s.last_partner.id ∧
          1 < s.myView.count ∧
          ∀ e ∈ (remove_descriptor s.myView (find_oldest_descriptor s.myView)).1.entries,
            (cyclon_cycle rnd now s).1.last_partner.timestamp ≤ e.timestamp)) ∧
      (∀ j1 j2 : Nat, (j1 : Int) < s.myView.count → (j2 : Int) < s.myView.count → j1 ≠ j2 →
        ¬ ((rd s.myView.descriptors j1).timestamp
              < (cyclon_cycle rnd now s).1.last_partner.timestamp ∧
            (rd s.myView.descriptors j2).timestamp
              < (cyclon_cycle rnd now s).1.last_partner.timestamp)) := by
  obtain ⟨hp, hd⟩ := cyclon_cycle_partner rnd now s hc
  obtain ⟨hid, hAB⟩ := select_partner_oldest s.myView s.last_partner hw hc
  rw [hp]
  refine ⟨hd, hid, hAB, ?_⟩
  intro j1 j2 h1 h2 hne ⟨l1, l2⟩
  rcases hAB with hA | ⟨_, _, hB⟩
  · have := hA _ (rd_mem_entries s.myView j1 hw h1)
    omega
  · obtain ⟨i, hi, hlt, _⟩ := find_oldest_descriptor_eq s.myView hc
    rw [hi, remove_descriptor_eq, if_neg (by omega)] at hB
    simp only [Int.toNat_ofNat] at hB
    by_cases hj : j1 = i
    · have := hB _ (rd_mem_remove_at s.myView i j2 hw hlt h2 (by omega))
      omega
    · have := hB _ (rd_mem_remove_at s.myView i j1 hw hlt h1 hj)
      omega


theorem cycle_partner_oldest_witness :
    (main_run exStart exRun).myView.wf ∧ 0 < (main_run exStart exRun).myView.count ∧
      ((cyclon_cycle (draws []) 120 (main_run exStart exRun)).2.map Packet.dest =
          [Dest.peer (cyclon_cycle (draws []) 120 (main_run exStart exRun)).1.last_partner.ipaddr
            (cyclon_cycle (draws []) 120 (main_run exStart exRun)).1.last_partner.port] ∧
        (cyclon_cycle (draws []) 120 (main_run exStart exRun)).1.last_partner.id
          ∈ (main_run exStart exRun).myView.ids ∧
        ((∀ e ∈ (main_run exStart exRun).myView.entries,
            (cyclon_cycle (draws []) 120 (main_run exStart exRun)).1.last_partner.timestamp
              ≤ e.timestamp) ∨
          ((remove_descriptor (main_run exStart exRun).myView
                (find_oldest_descriptor (main_run exStart exRun).myView)).2.id
              = (main_run exStart exRun).last_partner.id ∧
            1 < (main_run exStart exRun).myView.count ∧
            ∀ e ∈ (remove_descriptor (main_run exStart exRun).myView
                (find_oldest_descriptor (main_run exStart exRun).myView)).1.entries,
              (cyclon_cycle (draws []) 120 (main_run exStart exRun)).1.last_partner.timestamp
                ≤ e.timestamp)) ∧
        (∀ j1 j2 : Nat, (j1 : Int) < (main_run exStart exRun).myView.count →
          (j2 : Int) < (main_run exStart exRun).myView.count → j1 ≠ j2 →
          ¬ ((rd (main_run exStart exRun).myView.descriptors j1).timestamp
                < (cyclon_cycle (draws []) 120 (main_run exStart exRun)).1.last_partner.timestamp ∧
              (rd (main_run exStart exRun).myView.descriptors j2).timestamp
                < (cyclon_cycle (draws []) 120
                    (main_run exStart exRun)).1.last_partner.timestamp))) :=
  ⟨by decide, by decide,
   cycle_partner_oldest (draws []) 120 (main_run exStart exRun) (by decide) (by decide)⟩

/-! ## C13: sampling law -/

/-- C13: for every well-formed view with pairwise distinct ids, every count
argument `k` and every sequence of draws, `select_random_descriptors` lowers
`count` by exactly the number of descriptors it returns, and no returned
descriptor has the id of an entry that remains in the view. -/
theorem sampling_law (rnd : Nat → Nat) (v : View) (k : Int) (hw : v.wf) (hn : v.ids.Nodup) :
    (select_random_descriptors rnd v k).1.count
        = v.count - (select_random_descriptors rnd v k).2.length ∧
      ∀ d ∈ (select_random_descriptors rnd v k).2,
        d.id ∉ (select_random_descriptors rnd v k).1.ids := by
  obtain ⟨_, _, hc, hl⟩ := select_random_descriptors_inv rnd v k hw
  refine ⟨by rw [hc, hl], ?_⟩
  by_cases hk2 : k ≤ SWAP_LENGTH
  · have hp := select_random_descriptors_perm rnd v k hw hk2
    have hnd : ((select_random_descriptors rnd v k).2 ++
        (select_random_descriptors rnd v k).1.entries).map NodeDescriptor.id |>.Nodup :=
      (List.Perm.nodup_iff (List.Perm.map NodeDescriptor.id hp)).mpr hn
    rw [List.map_append, List.nodup_append] at hnd
    intro d hd hmem
    exact hnd.2.2 (List.mem_map_of_mem NodeDescriptor.id hd) hmem
  · have h3 := hw.2.2
    simp only [SWAP_LENGTH, VIEW_LENGTH] at hk2 h3
    push_cast at hk2 h3
    have hz : (select_random_descriptors rnd v k).1.count = 0 := by rw [hc]; omega
    intro d _ hmem
    simp [View.ids, View.entries, hz] at hmem

theorem sampling_law_witness :
    exFull.wf ∧ exFull.ids.Nodup ∧
      ((select_random_descriptors (draws [0, 0, 0]) exFull 3).1.count
          = exFull.count - (select_random_descriptors (draws [0, 0, 0]) exFull 3).2.length ∧
        ∀ d ∈ (select_random_descriptors (draws [0, 0, 0]) exFull 3).2,
          d.id ∉ (select_random_descriptors (draws [0, 0, 0]) exFull 3).1.ids) :=
  ⟨by decide, by decide, sampling_law (draws [0, 0, 0]) exFull 3 (by decide) (by decide)⟩


/-! ## C14: `update_descriptor` -/

/-- C14: for every well-formed view and descriptor `d`: with an empty id the view
is unchanged and 0 is returned; with a non-empty id that is present, 1 is
returned (also on a full view), count, ids, addresses and ports are unchanged,
the first entry with that id carries `d.timestamp` and entries with other ids are
kept; with a non-empty id that is absent, `d` is appended at the end and 1 is
returned when `count < VIEW_LENGTH`, and the view is unchanged and 0 is returned
when the view is full. -/
theorem update_descriptor_semantics (v : View) (d : NodeDescriptor) (hw : v.wf) :
    (d.id = [] → update_descriptor v d = (v, 0)) ∧
      (d.id ≠ [] → d.id ∈ v.ids →
        (update_descriptor v d).2 = 1 ∧
        (update_descriptor v d).1.count = v.count ∧
        (update_descriptor v d).1.ids = v.ids ∧
        (update_descriptor v d).1.entries.map NodeDescriptor.ipaddr
          = v.entries.map NodeDescriptor.ipaddr ∧
        (update_descriptor v d).1.entries.map NodeDescriptor.port
          = v.entries.map NodeDescriptor.port ∧
        ((update_descriptor v d).1.entries.find? (fun e => e.id = d.id)).map
          NodeDescriptor.timestamp = some d.timestamp ∧
        ∀ e ∈ v.entries, e.id ≠ d.id → e ∈ (update_descriptor v d).1.entries) ∧
      (d.id ≠ [] → d.id ∉ v.ids → v.count < VIEW_LENGTH →
        (update_descriptor v d).2 = 1 ∧
        (update_descriptor v d).1.entries = v.entries ++ [d]) ∧
      (d.id ≠ [] → d.id ∉ v.ids → v.count = VIEW_LENGTH → update_descriptor v d = (v, 0)) := by
  refine ⟨fun h => by simp [update_descriptor, h], fun hid hmem => ?_, fun hid hmem hc => ?_,
    fun hid hmem hc => ?_⟩
  · obtain ⟨a, b, c, rfl | rfl | rfl | rfl⟩ := v.wf_cases hw <;>
      simp [update_descriptor, exists_loop, View.ids, View.entries, VIEW_LENGTH, rd,
        set_timestamp, hid, eq_comm (a := d.id)] at hmem ⊢
    · simp [hmem]
    · by_cases h1 : a.id = d.id
      · simp [h1]
      · have h2 : b.id = d.id := by tauto
        simp [h1, h2]
    · by_cases h1 : a.id = d.id
      · simp [h1]
      · by_cases h2 : b.id = d.id
        · simp [h1, h2]
        · have h3 : c.id = d.id := by tauto
          simp [h1, h2, h3]
  · obtain ⟨a, b, c, rfl | rfl | rfl | rfl⟩ := v.wf_cases hw <;>
      simp [update_descriptor, exists_loop, View.ids, View.entries, VIEW_LENGTH, rd,
        set_timestamp, hid, eq_comm (a := d.id)] at hmem hc ⊢ <;>
      simp [hmem]
  · obtain ⟨a, b, c, rfl | rfl | rfl | rfl⟩ := v.wf_cases hw <;>
      simp [update_descriptor, exists_loop, View.ids, View.entries, VIEW_LENGTH, rd,
        set_timestamp, hid, eq_comm (a := d.id)] at hmem hc ⊢
    simp [hmem]

theorem update_descriptor_semantics_witness :
    exFull.wf ∧ ({ exB with timestamp := 999 } : NodeDescriptor).id ≠ [] ∧
      ({ exB with timestamp := 999 } : NodeDescriptor).id ∈ exFull.ids ∧
      ((update_descriptor exFull { exB with timestamp := 999 }).2 = 1 ∧
        (update_descriptor exFull { exB with timestamp := 999 }).1.count = exFull.count ∧
        (update_descriptor exFull { exB with timestamp := 999 }).1.ids = exFull.ids ∧
        (update_descriptor exFull { exB with timestamp := 999 }).1.entries.map
            NodeDescriptor.ipaddr = exFull.entries.map NodeDescriptor.ipaddr ∧
        (update_descriptor exFull { exB with timestamp := 999 }).1.entries.map
            NodeDescriptor.port = exFull.entries.map NodeDescriptor.port ∧
        ((update_descriptor exFull { exB with timestamp := 999 }).1.entries.find?
            (fun e => e.id = ({ exB with timestamp := 999 } : NodeDescriptor).id)).map
          NodeDescriptor.timestamp = some ({ exB with timestamp := 999 } : NodeDescriptor).timestamp ∧
        ∀ e ∈ exFull.entries, e.id ≠ ({ exB with timestamp := 999 } : NodeDescriptor).id →
          e ∈ (update_descriptor exFull { exB with timestamp := 999 }).1.entries) :=
  ⟨by decide, by decide, by decide,
   (update_descriptor_semantics exFull { exB with timestamp := 999 } (by decide)).2.1
     (by decide) (by decide)⟩

/-! ## C16, C17: the gossip cache -/

theorem take_succ_set {α : Type} (l : List α) (n : Nat) (x : α) (h : n < l.length) :
    (l.set n x).take (n + 1) = l.take n ++ [x] := by
  induction l generalizing n with
  | nil => simp at h
  | cons a l ih =>
    cases n with
    | zero => simp
    | succ n =>
      simp only [List.length_cons, Nat.add_lt_add_iff_right] at h
      simp [ih n h]

theorem shift_all_set_last {α : Type} (dflt : α) (l : List α) (n : Nat) (x : α)
    (h : l.length = n + 1) :
    (shift_loop dflt n 0 l).set n x = l.tail ++ [x] := by
  apply List.ext_getElem
  · simp [shift_loop_length, h]
  · intro k h1 h2
    have hk : k < n + 1 := by simpa [shift_loop_length, h] using h1
    have e1 := List.getD_eq_getElem ((shift_loop dflt n 0 l).set n x) dflt h1
    rw [← e1, getD_set_eq _ _ _ _ _ (by rw [shift_loop_length]; omega)]
    by_cases hkn : k = n
    · subst hkn
      simp [h]
    · rw [if_neg hkn, shift_loop_getD _ _ _ _ _ (by omega), if_pos (by omega)]
      have hk2 : k < l.tail.length := by simp [h]; omega
      rw [List.getElem_append_left hk2, List.getElem_tail]
      exact List.getD_eq_getElem _ _ _

theorem dup_loop_iff_mem (m : CStr) (c : Cache) (hw : c.wf) :
    dup_loop m c.msg_count.toNat 0 c.cached_msgs = true ↔ m ∈ c.entries := by
  obtain ⟨hl, h0, h1⟩ := hw
  simp only [MAX_CACHED_MSGS] at hl h1
  constructor
  · intro hd
    obtain ⟨k, hk, hm⟩ := dup_loop_mem _ _ _ _ hd
    simp only [Cache.entries, Nat.zero_add] at hm ⊢
    rw [List.mem_iff_getElem]
    have hk2 : k < c.cached_msgs.length := by omega
    refine ⟨k, by simp; omega, ?_⟩
    rw [List.getElem_take]
    rw [List.getD_eq_getElem _ _ hk2] at hm
    exact hm
  · intro hm
    rw [Cache.entries, List.mem_iff_getElem] at hm
    obtain ⟨k, hk, he⟩ := hm
    simp only [List.length_take, lt_min_iff] at hk
    rw [List.getElem_take] at he
    exact dup_loop_true m c.cached_msgs c.msg_count.toNat 0 k hk.1
      (by rw [Nat.zero_add, List.getD_eq_getElem _ _ hk.2]; exact he)

/-- What `is_duplicate_message` does to the live payloads. -/
theorem is_duplicate_message_entries (m : CStr) (c : Cache) (hw : c.wf) :
    (m ∈ c.entries → is_duplicate_message m c = (c, 1)) ∧
      (m ∉ c.entries →
        (is_duplicate_message m c).2 = 0 ∧
        (c.msg_count < MAX_CACHED_MSGS →
          (is_duplicate_message m c).1.entries = c.entries ++ [m]) ∧
        (c.msg_count = MAX_CACHED_MSGS →
          (is_duplicate_message m c).1.entries = c.entries.tail ++ [m])) := by
  have hiff := dup_loop_iff_mem m c hw
  obtain ⟨hl, h0, h1⟩ := hw
  simp only [MAX_CACHED_MSGS] at hl h1
  constructor
  · intro hm
    unfold is_duplicate_message
    rw [if_pos (hiff.mpr hm)]
  · intro hm
    have hd : ¬ dup_loop m c.msg_count.toNat 0 c.cached_msgs = true := fun h => hm (hiff.mp h)
    unfold is_duplicate_message
    rw [if_neg hd]
    refine ⟨by split_ifs <;> rfl, fun hlt => ?_, fun heq => ?_⟩
    · rw [if_pos hlt]
      simp only [MAX_CACHED_MSGS] at hlt
      simp only [Cache.entries]
      rw [show (c.msg_count + 1).toNat = c.msg_count.toNat + 1 by omega]
      exact take_succ_set _ _ _ (by omega)
    · rw [if_neg (by omega)]
      simp only [MAX_CACHED_MSGS] at heq
      simp only [Cache.entries, MAX_CACHED_MSGS, heq]
      rw [shift_all_set_last [] c.cached_msgs 49 m hl]
      rw [Int.toNat_ofNat, List.take_of_length_le (by simp [hl]),
        List.take_of_length_le (by omega)]

theorem is_duplicate_message_inv (m : CStr) (c : Cache) (h : c.inv) :
    (is_duplicate_message m c).1.inv := by
  refine ⟨is_duplicate_message_wf m c h.1, ?_⟩
  obtain ⟨h1, h2⟩ := is_duplicate_message_entries m c h.1
  by_cases hm : m ∈ c.entries
  · rw [h1 hm]; exact h.2
  · obtain ⟨_, ha, hb⟩ := h2 hm
    have hb3 := h.1.2.2
    rcases lt_or_eq_of_le hb3 with hlt | heq
    · rw [ha hlt]
      exact List.Nodup.append h.2 (List.nodup_singleton m) (by simpa using hm)
    · rw [hb heq]
      exact List.Nodup.append (List.Nodup.sublist (List.tail_sublist _) h.2)
        (List.nodup_singleton m)
        (by simpa using fun h' => hm (List.mem_of_mem_tail h'))

theorem Cache.entries_length_le (c : Cache) (hw : c.wf) : c.entries.length ≤ MAX_CACHED_MSGS := by
  obtain ⟨hl, h0, h1⟩ := hw
  simp only [Cache.entries, List.length_take]
  omega

theorem cache_run_inv (c : Cache) (ms : List CStr) (h : c.inv) : (cache_run c ms).inv := by
  induction ms generalizing c with
  | nil => exact h
  | cons m ms ih => exact ih _ (is_duplicate_message_inv m c h)

theorem main_step_cache_inv (s : State) (e : Event) (h : s.cache.inv) :
    (main_step s e).1.cache.inv := by
  rcases main_step_cache s e with h1 | ⟨m, h1⟩ <;> rw [h1]
  · exact h
  · exact is_duplicate_message_inv m _ h

theorem main_run_cache_inv (s : State) (es : List Event) (h : s.cache.inv) :
    (main_run s es).cache.inv := by
  induction es generalizing s with
  | nil => exact h
  | cons e es ih => exact ih _ (main_step_cache_inv s e h)

theorem main_init_cache (allUsers : List NodeDescriptor) (portno : Int) (rnd : Nat → Nat)
    (junk : List NodeDescriptor) (cjunk : List CStr) (now : Int) (s : State)
    (h : main_init allUsers portno rnd junk cjunk now = some s) :
    s.cache = { cached_msgs := cjunk, msg_count := 0 } := by
  unfold main_init at h
  split_ifs at h
  split at h
  · exact absurd h (by simp)
  · simp only [Option.some.injEq] at h
    subst h
    rfl

theorem empty_cache_inv (cjunk : List CStr) (hj : cjunk.length = MAX_CACHED_MSGS) :
    ({ cached_msgs := cjunk, msg_count := 0 } : Cache).inv :=
  ⟨⟨hj, le_refl _, by simp⟩, by simp [Cache.entries]⟩

/-- C16: starting from the empty cache, after any sequence of
`is_duplicate_message` calls the cache holds at most `MAX_CACHED_MSGS` payloads
and they are pairwise distinct; the same holds for the cache of the program in
every state reached from start-up. -/
theorem cache_bounded_distinct (cjunk : List CStr) (hj : cjunk.length = MAX_CACHED_MSGS)
    (ms : List CStr)
    (allUsers : List NodeDescriptor) (portno : Int) (rnd : Nat → Nat)
    (junk : List NodeDescriptor) (now : Int) (s0 : State)
    (hinit : main_init allUsers portno rnd junk cjunk now = some s0) (es : List Event) :
    ((cache_run { cached_msgs := cjunk, msg_count := 0 } ms).entries.length ≤ MAX_CACHED_MSGS ∧
        (cache_run { cached_msgs := cjunk, msg_count := 0 } ms).entries.Nodup) ∧
      ((main_run s0 es).cache.entries.length ≤ MAX_CACHED_MSGS ∧
        (main_run s0 es).cache.entries.Nodup) := by
  have h1 := cache_run_inv _ ms (empty_cache_inv cjunk hj)
  have h2 : (main_run s0 es).cache.inv :=
    main_run_cache_inv s0 es (by
      rw [main_init_cache _ _ _ _ _ _ _ hinit]; exact empty_cache_inv cjunk hj)
  exact ⟨⟨Cache.entries_length_le _ h1.1, h1.2⟩, ⟨Cache.entries_length_le _ h2.1, h2.2⟩⟩

theorem cache_bounded_distinct_witness :
    exCJunk.length = MAX_CACHED_MSGS ∧
      main_init [exA, exB] 9001 (draws []) exJunk exCJunk 100 = some exStart ∧
      (((cache_run { cached_msgs := exCJunk, msg_count := 0 }
            (exPayloads ++ exPayloads)).entries.length ≤ MAX_CACHED_MSGS ∧
          (cache_run { cached_msgs := exCJunk, msg_count := 0 }
            (exPayloads ++ exPayloads)).entries.Nodup) ∧
        ((main_run exStart exFlood).cache.entries.length ≤ MAX_CACHED_MSGS ∧
          (main_run exStart exFlood).cache.entries.Nodup)) :=
  ⟨by decide, by decide,
   cache_bounded_distinct exCJunk (by decide) (exPayloads ++ exPayloads) [exA, exB] 9001
     (draws []) exJunk 100 exStart (by decide) exFlood⟩

/-- C17: for every well-formed cache and message `m`, `is_duplicate_message`
returns 1 exactly when `m` is among the live payloads, and then leaves the cache
unchanged; otherwise it returns 0 and the live payloads become the old ones with
`m` appended when there were fewer than `MAX_CACHED_MSGS`, or the old ones
without the first, in order, with `m` appended when there were `MAX_CACHED_MSGS`. -/
theorem cache_fifo_semantics (m : CStr) (c : Cache) (hw : c.wf) :
    ((is_duplicate_message m c).2 = 1 ↔ m ∈ c.entries) ∧
      (m ∈ c.entries → is_duplicate_message m c = (c, 1)) ∧
      (m ∉ c.entries →
        (is_duplicate_message m c).2 = 0 ∧
        (c.entries.length < MAX_CACHED_MSGS →
          (is_duplicate_message m c).1.entries = c.entries ++ [m]) ∧
        (c.entries.length = MAX_CACHED_MSGS →
          (is_duplicate_message m c).1.entries = c.entries.tail ++ [m])) := by
  obtain ⟨h1, h2⟩ := is_duplicate_message_entries m c hw
  have hlen : (c.entries.length : Int) = c.msg_count := by
    obtain ⟨hl, h0, hb⟩ := hw
    simp only [Cache.entries, List.length_take, MAX_CACHED_MSGS] at hl hb ⊢
    omega
  refine ⟨⟨fun hr => ?_, fun hm => by rw [h1 hm]⟩, h1, fun hm => ?_⟩
  · by_contra hm
    rw [(h2 hm).1] at hr
    exact absurd hr (by decide)
  · obtain ⟨ha, hb, hc⟩ := h2 hm
    exact ⟨ha, fun h => hb (by omega), fun h => hc (by omega)⟩

set_option maxRecDepth 100000 in
theorem cache_fifo_semantics_witness :
    (cache_run { cached_msgs := exCJunk, msg_count := 0 } exPayloads).wf ∧
      "A: hi".toList ∉ (cache_run { cached_msgs := exCJunk, msg_count := 0 } exPayloads).entries ∧
      (cache_run { cached_msgs := exCJunk, msg_count := 0 } exPayloads).entries.length
        = MAX_CACHED_MSGS ∧
      (is_duplicate_message "A: hi".toList
          (cache_run { cached_msgs := exCJunk, msg_count := 0 } exPayloads)).1.entries
        = (cache_run { cached_msgs := exCJunk, msg_count := 0 } exPayloads).entries.tail
            ++ ["A: hi".toList] :=
  ⟨by decide, by decide, by decide,
   ((cache_fifo_semantics "A: hi".toList
      (cache_run { cached_msgs := exCJunk, msg_count := 0 } exPayloads) (by decide)).2.2
      (by decide)).2.2 (by decide)⟩

/-! ## C18: start-up seeding -/

theorem cons_set_perm {α : Type} (t : List α) (y : Nat) (a d : α) (h : y < t.length) :
    (t.getD y d :: t.set y a).Perm (a :: t) := by
  induction t generalizing y with
  | nil => simp at h
  | cons b t ih =>
    cases y with
    | zero => simpa using List.Perm.swap a b t
    | succ y =>
      simp only [List.length_cons, Nat.add_lt_add_iff_right] at h
      have h1 := ih y h
      simp only [List.getD_cons_succ, List.set_cons_succ]
      exact (List.Perm.swap b (t.getD y d) _).trans
        (((h1.cons b)).trans (List.Perm.swap a b t))

/-- Exchanging two slots of an array permutes it. -/
theorem swap_perm {α : Type} (l : List α) (x y : Nat) (d : α) (hx : x < l.length)
    (hy : y < l.length) : ((l.set x (l.getD y d)).set y (l.getD x d)).Perm l := by
  induction l generalizing x y with
  | nil => simp at hx
  | cons a t ih =>
    cases x with
    | zero =>
      cases y with
      | zero => simp
      | succ y =>
        simp only [List.length_cons, Nat.add_lt_add_iff_right] at hy
        simpa using cons_set_perm t y a d hy
    | succ x =>
      simp only [List.length_cons, Nat.add_lt_add_iff_right] at hx
      cases y with
      | zero => simpa using cons_set_perm t x a d hx
      | succ y =>
        simp only [List.length_cons, Nat.add_lt_add_iff_right] at hy
        simpa using ih x y hx hy

/-- The Fisher-Yates loop permutes the array, whatever the draws. -/
theorem shuffle_loop_perm (rnd : Nat → Nat) (i k : Nat) (a : List Nat)
    (h : i < a.length ∨ i = 0) : (shuffle_loop rnd i k a).Perm a := by
  induction i generalizing k a with
  | zero => exact List.Perm.refl _
  | succ i ih =>
    have hi : i + 1 < a.length := by omega
    simp only [shuffle_loop]
    have hj : rnd k % (i + 2) < a.length := by
      have := Nat.mod_lt (rnd k) (show 0 < i + 2 by omega)
      omega
    have hs := swap_perm a (i + 1) (rnd k % (i + 2)) 0 hi hj
    exact (ih (k + 1) _ (Or.inl (by rw [hs.length_eq]; omega))).trans hs

theorem add_descriptor_append (v : View) (d : NodeDescriptor) (hw : v.wf)
    (hc : v.count < VIEW_LENGTH) (hid : d.id ≠ []) (hnew : d.id ∉ v.ids) :
    (add_descriptor v d).1.entries = v.entries ++ [d] ∧
      (add_descriptor v d).1.count = v.count + 1 := by
  obtain ⟨a, b, c, rfl | rfl | rfl | rfl⟩ := v.wf_cases hw <;>
    simp [add_descriptor, exists_loop, View.ids, View.entries, VIEW_LENGTH, rd,
      set_timestamp, hid, eq_comm (a := d.id)] at hnew hc ⊢ <;>
    simp [hnew]

theorem seed_loop_entries (allUsers : List NodeDescriptor) (idx : List Nat) (n i : Nat) (v : View)
    (hw : v.wf) (hcap : v.count + n ≤ VIEW_LENGTH)
    (hne : ∀ k, k < n → (rd allUsers (idx.getD (i + k) 0)).id ≠ [])
    (hnew : ∀ k, k < n → (rd allUsers (idx.getD (i + k) 0)).id ∉ v.ids)
    (hdist : ∀ k1 k2, k1 < k2 → k2 < n →
      (rd allUsers (idx.getD (i + k1) 0)).id ≠ (rd allUsers (idx.getD (i + k2) 0)).id) :
    (seed_loop allUsers idx n i v).entries =
      v.entries ++ (List.range n).map (fun k => rd allUsers (idx.getD (i + k) 0)) := by
  induction n generalizing i v with
  | zero => simp [seed_loop]
  | succ n ih =>
    simp only [seed_loop]
    have h0 := hne 0 (by omega)
    have hn0 := hnew 0 (by omega)
    simp only [Nat.add_zero] at h0 hn0
    obtain ⟨he, hcnt⟩ := add_descriptor_append v _ hw (by push_cast at hcap; omega) h0 hn0
    rw [ih (i + 1) _ (add_descriptor_wf v _ hw) (by rw [hcnt]; push_cast at hcap ⊢; omega)
      (fun k hk => by rw [show i + 1 + k = i + (k + 1) by omega]; exact hne (k + 1) (by omega))
      (fun k hk => by
        rw [show i + 1 + k = i + (k + 1) by omega]
        simp only [View.ids, he, List.map_append, List.mem_append, List.map_cons, List.map_nil,
          List.mem_singleton, not_or]
        exact ⟨hnew (k + 1) (by omega), fun h => hdist 0 (k + 1) (by omega) (by omega) h.symm⟩)
      (fun k1 k2 h12 h2 => by
        rw [show i + 1 + k1 = i + (k1 + 1) by omega, show i + 1 + k2 = i + (k2 + 1) by omega]
        exact hdist (k1 + 1) (k2 + 1) (by omega) (by omega))]
    rw [he, List.range_succ_eq_map, List.map_cons, List.map_map, List.append_assoc]
    simp only [List.singleton_append, Nat.add_zero]
    congr 2
    apply List.map_congr_left
    intro k _
    simp only [Function.comp, Nat.succ_eq_add_one]
    rw [show i + 1 + k = i + (k + 1) by omega]

theorem find_self_lt (portno : Int) (us : List NodeDescriptor) (i m : Nat)
    (h : find_self portno us i = some m) : i ≤ m ∧ m < i + us.length := by
  induction us generalizing i with
  | nil => simp [find_self] at h
  | cons u us ih =>
    simp only [find_self] at h
    split_ifs at h
    · simp only [Option.some.injEq] at h
      simp only [List.length_cons]; omega
    · have := ih (i + 1) h
      simp only [List.length_cons]; omega

theorem rd_id_inj (allUsers : List NodeDescriptor) (hd : (allUsers.map NodeDescriptor.id).Nodup)
    (i j : Nat) (hi : i < allUsers.length) (hj : j < allUsers.length)
    (h : (rd allUsers i).id = (rd allUsers j).id) : i = j := by
  have hi2 : i < (allUsers.map NodeDescriptor.id).length := by simpa using hi
  have hj2 : j < (allUsers.map NodeDescriptor.id).length := by simpa using hj
  have e : (allUsers.map NodeDescriptor.id)[i] = (allUsers.map NodeDescriptor.id)[j] := by
    simp only [List.getElem_map]
    rw [rd, rd, List.getD_eq_getElem _ _ hi, List.getD_eq_getElem _ _ hj] at h
    exact h
  exact (List.Nodup.getElem_inj_iff hd).mp e

theorem getD_mem {α : Type} (l : List α) (k : Nat) (d : α) (h : k < l.length) :
    l.getD k d ∈ l := by
  rw [List.getD_eq_getElem _ _ h]
  exact List.getElem_mem h

theorem getD_inj_of_nodup (l : List Nat) (hn : l.Nodup) (k1 k2 : Nat) (h1 : k1 < l.length)
    (h2 : k2 < l.length) (h : l.getD k1 0 = l.getD k2 0) : k1 = k2 := by
  rw [List.getD_eq_getElem _ _ h1, List.getD_eq_getElem _ _ h2] at h
  exact (List.Nodup.getElem_inj_iff hn).mp h

theorem length_filter_ne_range (n k : Nat) (hk : k < n) :
    ((List.range n).filter (fun i => i ≠ k)).length = n - 1 := by
  induction n with
  | zero => omega
  | succ n ih =>
    rw [List.range_succ, List.filter_append, List.length_append]
    by_cases hkn : k = n
    · subst hkn
      have e1 : (List.range k).filter (fun i => decide (i ≠ k)) = List.range k := by
        rw [List.filter_eq_self]
        intro a ha
        have := List.mem_range.mp ha
        simp; omega
      have e2 : List.filter (fun i => decide (i ≠ k)) [k] = [] := by simp
      rw [e1, e2]; simp
    · have h1 := ih (by omega)
      have e2 : List.filter (fun i => decide (i ≠ k)) [n] = [n] := by
        simp [List.filter_cons]; omega
      rw [h1, e2]; simp; omega

theorem bootstrap_view (allUsers : List NodeDescriptor) (portno : Int) (rnd : Nat → Nat)
    (junk : List NodeDescriptor) (cjunk : List CStr) (now : Int) (s : State)
    (hj : junk.length = VIEW_LENGTH)
    (hids : (allUsers.map NodeDescriptor.id).Nodup)
    (hne : ∀ u ∈ allUsers, u.id ≠ [])
    (h : main_init allUsers portno rnd junk cjunk now = some s) :
    ∃ (myIndex : Nat) (idxs : List Nat),
      myIndex < allUsers.length ∧ s.myDescriptor = rd allUsers myIndex ∧
        idxs.Nodup ∧ (∀ i ∈ idxs, i < allUsers.length ∧ i ≠ myIndex) ∧
        idxs.length = min (allUsers.length - 1) VIEW_LENGTH ∧
        s.myView.entries = idxs.map (rd allUsers) := by
  unfold main_init at h
  split_ifs at h with hlen
  split at h
  · exact absurd h (by simp)
  · rename_i myIndex hfs
    simp only [Option.some.injEq] at h
    subst h
    have hm := (find_self_lt portno allUsers 0 myIndex hfs).2
    simp only [Nat.zero_add] at hm
    have hol := length_filter_ne_range allUsers.length myIndex hm
    have hperm := shuffle_loop_perm rnd
      (((List.range allUsers.length).filter (fun i => i ≠ myIndex)).length - 1) 0
      ((List.range allUsers.length).filter (fun i => i ≠ myIndex)) (by omega)
    have hnd : (shuffle_loop rnd
        (((List.range allUsers.length).filter (fun i => i ≠ myIndex)).length - 1) 0
        ((List.range allUsers.length).filter (fun i => i ≠ myIndex))).Nodup :=
      (hperm.nodup_iff).mpr (List.Nodup.filter _ (List.nodup_range _))
    have hmem : ∀ x ∈ shuffle_loop rnd
        (((List.range allUsers.length).filter (fun i => i ≠ myIndex)).length - 1) 0
        ((List.range allUsers.length).filter (fun i => i ≠ myIndex)),
        x < allUsers.length ∧ x ≠ myIndex := by
      intro x hx
      have := (hperm.mem_iff).mp hx
      simpa [List.mem_filter, List.mem_range] using this
    have hlen2 := hperm.length_eq
    generalize shuffle_loop rnd
      (((List.range allUsers.length).filter (fun i => i ≠ myIndex)).length - 1) 0
      ((List.range allUsers.length).filter (fun i => i ≠ myIndex)) = sh at hnd hmem hlen2 ⊢
    rw [hol] at hlen2 ⊢
    obtain ⟨m, hmdef⟩ : ∃ m, (if allUsers.length - 1 < VIEW_LENGTH then allUsers.length - 1
        else VIEW_LENGTH) = m := ⟨_, rfl⟩
    rw [hmdef]
    have hm3 : m ≤ VIEW_LENGTH ∧ m ≤ sh.length ∧ m = min (allUsers.length - 1) VIEW_LENGTH := by
      rw [← hmdef]; split_ifs <;> omega
    have hent := seed_loop_entries allUsers sh m 0 { descriptors := junk, count := 0 }
      ⟨hj, le_refl _, by simp⟩ (by simp only [Int.zero_add]; exact_mod_cast hm3.1)
      (fun k hk => by
        rw [Nat.zero_add]
        have hx := hmem _ (getD_mem sh k 0 (by omega))
        exact hne _ (by rw [rd]; exact getD_mem allUsers _ _ hx.1))
      (fun k _ => by simp [View.ids, View.entries])
      (fun k1 k2 h12 h2 hid => by
        simp only [Nat.zero_add] at hid
        have hx1 := hmem _ (getD_mem sh k1 0 (by omega))
        have hx2 := hmem _ (getD_mem sh k2 0 (by omega))
        have := rd_id_inj allUsers hids _ _ hx1.1 hx2.1 hid
        have := getD_inj_of_nodup sh hnd k1 k2 (by omega) (by omega) this
        omega)
    refine ⟨myIndex, sh.take m, hm, rfl, List.Nodup.sublist (List.take_sublist _ _) hnd,
      fun i hi => hmem i (List.mem_of_mem_take hi), ?_, ?_⟩
    · rw [List.length_take]; omega
    · rw [hent]
      simp only [View.entries, Int.toNat_zero, List.take_zero, List.nil_append, Nat.zero_add]
      apply List.ext_getElem
      · simp; omega
      · intro k h1 h2
        simp only [List.length_map, List.length_range] at h1
        simp only [List.getElem_map, List.getElem_range, List.getElem_take]
        rw [List.getD_eq_getElem _ _ (by omega)]

theorem find_self_port (portno : Int) (us : List NodeDescriptor) (i m : Nat)
    (h : find_self portno us i = some m) : (rd us (m - i)).port = portno := by
  induction us generalizing i with
  | nil => simp [find_self] at h
  | cons u us ih =>
    simp only [find_self] at h
    split_ifs at h with hp
    · simp only [Option.some.injEq] at h
      subst h
      simpa [rd] using hp
    · have h1 := find_self_lt portno us (i + 1) m h
      have h2 := ih (i + 1) h
      rw [show m - i = (m - (i + 1)) + 1 by omega]
      simpa [rd] using h2

theorem main_init_self_port (allUsers : List NodeDescriptor) (portno : Int) (rnd : Nat → Nat)
    (junk : List NodeDescriptor) (cjunk : List CStr) (now : Int) (s : State)
    (h : main_init allUsers portno rnd junk cjunk now = some s) :
    s.myDescriptor.port = portno := by
  unfold main_init at h
  split_ifs at h
  split at h
  · exact absurd h (by simp)
  · rename_i myIndex hfs
    simp only [Option.some.injEq] at h
    subst h
    exact find_self_port portno allUsers 0 myIndex hfs

theorem find_self_some (portno : Int) (us : List NodeDescriptor) (i : Nat)
    (h : ∃ u ∈ us, u.port = portno) : ∃ m, find_self portno us i = some m := by
  induction us generalizing i with
  | nil => simp at h
  | cons u us ih =>
    simp only [find_self]
    split_ifs with hp
    · exact ⟨i, rfl⟩
    · obtain ⟨w, hw, hwp⟩ := h
      rcases List.mem_cons.mp hw with e | e
      · exact absurd (e ▸ hwp) hp
      · exact ih (i + 1) ⟨w, e, hwp⟩

/-- Start-up succeeds when the roster has two entries and one with the port. -/
theorem main_init_some (allUsers : List NodeDescriptor) (portno : Int) (rnd : Nat → Nat)
    (junk : List NodeDescriptor) (cjunk : List CStr) (now : Int)
    (hlen : 2 ≤ allUsers.length) (hport : ∃ u ∈ allUsers, u.port = portno) :
    ∃ s, main_init allUsers portno rnd junk cjunk now = some s := by
  obtain ⟨m, hm⟩ := find_self_some portno allUsers 0 hport
  unfold main_init
  rw [if_neg (by omega)]
  simp only [hm]
  exact ⟨_, rfl⟩

/-- C18: for every roster of at least two entries with pairwise distinct
non-empty ids, one of them carrying the node's port, every draws and any
contents of the uninitialised arrays, start-up succeeds and the initial view has
exactly `min(|roster| - 1, VIEW_LENGTH)` entries, each of them a roster entry
other than self, with pairwise distinct ids none of which is the node's own id. -/
theorem bootstrap_seeding (allUsers : List NodeDescriptor) (portno : Int) (rnd : Nat → Nat)
    (junk : List NodeDescriptor) (cjunk : List CStr) (now : Int)
    (hj : junk.length = VIEW_LENGTH)
    (hlen : 2 ≤ allUsers.length) (hport : ∃ u ∈ allUsers, u.port = portno)
    (hids : (allUsers.map NodeDescriptor.id).Nodup)
    (hne : ∀ u ∈ allUsers, u.id ≠ []) :
    ∃ s, main_init allUsers portno rnd junk cjunk now = some s ∧
      s.myDescriptor ∈ allUsers ∧ s.myDescriptor.port = portno ∧
      s.myView.count = ((min (allUsers.length - 1) VIEW_LENGTH : Nat) : Int) ∧
      s.myView.entries.length = min (allUsers.length - 1) VIEW_LENGTH ∧
      (∀ e ∈ s.myView.entries, e ∈ allUsers ∧ e ≠ s.myDescriptor ∧ e.id ≠ s.myDescriptor.id) ∧
      s.myView.ids.Nodup ∧
      s.myDescriptor.id ∉ s.myView.ids := by
  obtain ⟨s, h⟩ := main_init_some allUsers portno rnd junk cjunk now hlen hport
  refine ⟨s, h, ?_⟩
  obtain ⟨myIndex, idxs, hm, hself, hnd, hidx, hlen', hent⟩ :=
    bootstrap_view allUsers portno rnd junk cjunk now s hj hids hne h
  have hinv := main_init_inv allUsers portno rnd junk cjunk now s hj h
  have hother : ∀ e ∈ s.myView.entries, e ∈ allUsers ∧ e.id ≠ s.myDescriptor.id := by
    intro e he
    rw [hent, List.mem_map] at he
    obtain ⟨i, hi, rfl⟩ := he
    obtain ⟨h1, h2⟩ := hidx i hi
    refine ⟨by rw [rd]; exact getD_mem allUsers i _ h1, fun hid => h2 ?_⟩
    rw [hself] at hid
    exact rd_id_inj allUsers hids i myIndex h1 hm hid
  have hel : s.myView.entries.length = min (allUsers.length - 1) VIEW_LENGTH := by
    rw [hent, List.length_map, hlen']
  refine ⟨by rw [hself, rd]; exact getD_mem allUsers myIndex _ hm, ?_, ?_, hel,
    fun e he => ⟨(hother e he).1, fun heq => (hother e he).2 (by rw [heq]), (hother e he).2⟩,
    hinv.2, ?_⟩
  · exact main_init_self_port allUsers portno rnd junk cjunk now s h
  · obtain ⟨hl, h0, h3⟩ := hinv.1
    rw [← hel]
    simp only [View.entries, List.length_take, hl]
    simp only [VIEW_LENGTH] at h3 ⊢
    omega
  · intro hmem
    simp only [View.ids, List.mem_map] at hmem
    obtain ⟨e, he, hid⟩ := hmem
    exact (hother e he).2 hid

theorem bootstrap_seeding_witness :
    exJunk.length = VIEW_LENGTH ∧ 2 ≤ [exA, exB, exC, exD].length ∧
      (∃ u ∈ [exA, exB, exC, exD], u.port = 9001) ∧
      ([exA, exB, exC, exD].map NodeDescriptor.id).Nodup ∧
      (∀ u ∈ [exA, exB, exC, exD], u.id ≠ []) ∧
      main_init [exA, exB, exC, exD] 9001 (draws [2, 0]) exJunk exCJunk 100 = some exStart4 ∧
      ∃ s, main_init [exA, exB, exC, exD] 9001 (draws [2, 0]) exJunk exCJunk 100 = some s ∧
        s.myDescriptor ∈ [exA, exB, exC, exD] ∧ s.myDescriptor.port = 9001 ∧
        s.myView.count = ((min ([exA, exB, exC, exD].length - 1) VIEW_LENGTH : Nat) : Int) ∧
        s.myView.entries.length = min ([exA, exB, exC, exD].length - 1) VIEW_LENGTH ∧
        (∀ e ∈ s.myView.entries,
          e ∈ [exA, exB, exC, exD] ∧ e ≠ s.myDescriptor ∧ e.id ≠ s.myDescriptor.id) ∧
        s.myView.ids.Nodup ∧
        s.myDescriptor.id ∉ s.myView.ids :=
  ⟨by decide, by decide, by decide, by decide, by decide, by decide,
   bootstrap_seeding [exA, exB, exC, exD] 9001 (draws [2, 0]) exJunk exCJunk 100
     (by decide) (by decide) (by decide) (by decide) (by decide)⟩

/-! ## C19: fan-out -/

theorem fanout_eq (rnd : Nat → Nat) (v : View) (payload : CStr) :
    fanout rnd v payload = (fanout_positions rnd v).map (fanout_packet v payload) := by
  unfold fanout fanout_positions
  split_ifs <;> first | (simp only [List.map_map]; rfl) | simp

theorem fanout_positions_spec (rnd : Nat → Nat) (v : View) (hw : v.wf) :
    (fanout_positions rnd v).Nodup ∧
      (∀ i ∈ fanout_positions rnd v, (i : Int) < v.count) ∧
      ((fanout_positions rnd v).length : Int) = min v.count FORWARD_COUNT := by
  have m3 : rnd 0 % 3 = 0 ∨ rnd 0 % 3 = 1 ∨ rnd 0 % 3 = 2 := by omega
  have m2 : rnd 0 % 2 = 0 ∨ rnd 0 % 2 = 1 := by omega
  have n2 : rnd 1 % 2 = 0 ∨ rnd 1 % 2 = 1 := by omega
  obtain ⟨a, b, c, rfl | rfl | rfl | rfl⟩ := v.wf_cases hw
  · simp [fanout_positions, FORWARD_COUNT]
  · simp [fanout_positions, FORWARD_COUNT, shuffle_loop, List.range, List.range.loop]
  · rcases m2 with e | e <;>
      simp [fanout_positions, FORWARD_COUNT, shuffle_loop, List.range, List.range.loop, e]
  · rcases m3 with e | e | e <;> rcases n2 with f | f <;>
      simp [fanout_positions, FORWARD_COUNT, shuffle_loop, List.range, List.range.loop, e, f]

theorem main_step_gossip (rnd : Nat → Nat) (clk : Nat → Int) (buf : CStr) (s : State)
    (happ : "CYCLON_PUSH:".toList.isPrefixOf buf = false ∧
      "CYCLON_REPLY:".toList.isPrefixOf buf = false) :
    main_step s (Event.datagram buf clk rnd) = handle_gossip rnd buf s := by
  simp only [main_step, handle_datagram, happ.1, happ.2]
  rfl

theorem main_step_originate (rnd : Nat → Nat) (buf : CStr) (s : State)
    (hline : console_line buf ≠ "BYE".toList ∧ console_line buf ≠ "VIEW".toList ∧
      console_line buf ≠ "CYCLE".toList) :
    main_step s (Event.input buf rnd) =
      ({ s with cache :=
          (is_duplicate_message (formattedMessage s.myDescriptor.id (console_line buf))
            s.cache).1 },
        fanout rnd s.myView (formattedMessage s.myDescriptor.id (console_line buf))) := by
  simp only [main_step, handle_input, if_neg hline.1, if_neg hline.2.1, if_neg hline.2.2]

/-- C19: for every well-formed view and all draws, originating a console
message and forwarding a first-seen inbound application payload both send the
payload to the peers at a list of view positions that are pairwise distinct, lie
below `count`, and number `min(count, FORWARD_COUNT)`; so to nobody when the view
is empty. -/
theorem fanout_selection (rnd : Nat → Nat) (clk : Nat → Int) (buf line : CStr) (s : State)
    (hw : s.myView.wf) (hc : s.cache.wf)
    (happ : "CYCLON_PUSH:".toList.isPrefixOf buf = false ∧
      "CYCLON_REPLY:".toList.isPrefixOf buf = false)
    (hfresh : buf ∉ s.cache.entries)
    (hline : console_line line ≠ "BYE".toList ∧ console_line line ≠ "VIEW".toList ∧
      console_line line ≠ "CYCLE".toList) :
    ∃ idxs : List Nat,
      idxs.Nodup ∧ (∀ i ∈ idxs, (i : Int) < s.myView.count) ∧
        (idxs.length : Int) = min s.myView.count FORWARD_COUNT ∧
        (s.myView.count = 0 → idxs = []) ∧
        (main_step s (Event.datagram buf clk rnd)).2 =
          idxs.map (fun i =>
            { dest := Dest.peer (rd s.myView.descriptors i).ipaddr (rd s.myView.descriptors i).port,
              payload := buf }) ∧
        (main_step s (Event.input line rnd)).2 =
          idxs.map (fun i =>
            { dest := Dest.peer (rd s.myView.descriptors i).ipaddr (rd s.myView.descriptors i).port,
              payload := formattedMessage s.myDescriptor.id (console_line line) }) := by
  obtain ⟨h1, h2, h3⟩ := fanout_positions_spec rnd s.myView hw
  refine ⟨fanout_positions rnd s.myView, h1, h2, h3, ?_, ?_, ?_⟩
  · intro h0
    simp [fanout_positions, h0]
  · rw [main_step_gossip rnd clk buf s happ]
    have hz := ((is_duplicate_message_entries buf s.cache hc).2 hfresh).1
    simp only [handle_gossip, hz, if_true]
    exact fanout_eq rnd s.myView buf
  · rw [main_step_originate rnd line s hline]
    exact fanout_eq rnd s.myView _

theorem fanout_selection_witness :
    exStart4.myView.wf ∧ exStart4.cache.wf ∧
      ("CYCLON_PUSH:".toList.isPrefixOf "hello".toList = false ∧
        "CYCLON_REPLY:".toList.isPrefixOf "hello".toList = false) ∧
      "hello".toList ∉ exStart4.cache.entries ∧
      (console_line "hi\n".toList ≠ "BYE".toList ∧ console_line "hi\n".toList ≠ "VIEW".toList ∧
        console_line "hi\n".toList ≠ "CYCLE".toList) ∧
      ∃ idxs : List Nat,
        idxs.Nodup ∧ (∀ i ∈ idxs, (i : Int) < exStart4.myView.count) ∧
          (idxs.length : Int) = min exStart4.myView.count FORWARD_COUNT ∧
          (exStart4.myView.count = 0 → idxs = []) ∧
          (main_step exStart4 (Event.datagram "hello".toList (fun _ => 105) (draws [1, 1]))).2 =
            idxs.map (fun i =>
              { dest := Dest.peer (rd exStart4.myView.descriptors i).ipaddr
                  (rd exStart4.myView.descriptors i).port,
                payload := "hello".toList }) ∧
          (main_step exStart4 (Event.input "hi\n".toList (draws [1, 1]))).2 =
            idxs.map (fun i =>
              { dest := Dest.peer (rd exStart4.myView.descriptors i).ipaddr
                  (rd exStart4.myView.descriptors i).port,
                payload := formattedMessage exStart4.myDescriptor.id
                  (console_line "hi\n".toList) }) :=
  ⟨by decide, by decide, by decide, by decide, by decide,
   fanout_selection (draws [1, 1]) (fun _ => 105) "hello".toList "hi\n".toList exStart4
     (by decide) (by decide) (by decide) (by decide) (by decide)⟩

/-! ## C20: dissemination leaves the view alone -/

/-- C20: handling an inbound application datagram (duplicate or first seen) or
originating a console gossip message changes nothing in the state but the
message cache: the view, with its count and all its descriptors, is the same
afterwards. -/
theorem dissemination_keeps_view (rnd : Nat → Nat) (clk : Nat → Int) (buf line : CStr)
    (s : State)
    (happ : "CYCLON_PUSH:".toList.isPrefixOf buf = false ∧
      "CYCLON_REPLY:".toList.isPrefixOf buf = false)
    (hline : console_line line ≠ "BYE".toList ∧ console_line line ≠ "VIEW".toList ∧
      console_line line ≠ "CYCLE".toList) :
    ((main_step s (Event.datagram buf clk rnd)).1 =
        { s with cache := (is_duplicate_message buf s.cache).1 } ∧
      (main_step s (Event.datagram buf clk rnd)).1.myView = s.myView) ∧
    ((main_step s (Event.input line rnd)).1 =
        { s with cache :=
            (is_duplicate_message (formattedMessage s.myDescriptor.id (console_line line))
              s.cache).1 } ∧
      (main_step s (Event.input line rnd)).1.myView = s.myView) := by
  rw [main_step_gossip rnd clk buf s happ, main_step_originate rnd line s hline]
  refine ⟨⟨?_, handle_gossip_view rnd buf s⟩, rfl, rfl⟩
  unfold handle_gossip
  dsimp only
  split_ifs <;> rfl

theorem dissemination_keeps_view_witness :
    ("CYCLON_PUSH:".toList.isPrefixOf "hello".toList = false ∧
        "CYCLON_REPLY:".toList.isPrefixOf "hello".toList = false) ∧
      (console_line "hi\n".toList ≠ "BYE".toList ∧ console_line "hi\n".toList ≠ "VIEW".toList ∧
        console_line "hi\n".toList ≠ "CYCLE".toList) ∧
      (((main_step exStart4 (Event.datagram "hello".toList (fun _ => 105) (draws [1, 1]))).1 =
          { exStart4 with cache := (is_duplicate_message "hello".toList exStart4.cache).1 } ∧
        (main_step exStart4
          (Event.datagram "hello".toList (fun _ => 105) (draws [1, 1]))).1.myView
          = exStart4.myView) ∧
      ((main_step exStart4 (Event.input "hi\n".toList (draws [1, 1]))).1 =
          { exStart4 with cache :=
              (is_duplicate_message
                (formattedMessage exStart4.myDescriptor.id (console_line "hi\n".toList))
                exStart4.cache).1 } ∧
        (main_step exStart4 (Event.input "hi\n".toList (draws [1, 1]))).1.myView
          = exStart4.myView)) :=
  ⟨by decide, by decide,
   dissemination_keeps_view (draws [1, 1]) (fun _ => 105) "hello".toList "hi\n".toList exStart4
     (by decide) (by decide)⟩

/-! ## C15: wire format round trip -/

theorem digit_char (k : Nat) (h : k < 10) :
    is_digit (Char.ofNat (48 + k)) ∧ (Char.ofNat (48 + k)).toNat - 48 = k ∧
      Char.ofNat (48 + k) ≠ ':' ∧ isspace (Char.ofNat (48 + k)) = false ∧
      Char.ofNat (48 + k) ≠ '-' ∧ Char.ofNat (48 + k) ≠ '+' := by
  interval_cases k <;> decide

theorem parse_digits_append (xs ys : CStr) (a : Nat) (h : ∀ c ∈ xs, is_digit c) :
    parse_digits (xs ++ ys) a = parse_digits ys (parse_digits xs a) := by
  induction xs generalizing a with
  | nil => rfl
  | cons c cs ih =>
    have hc : '0' ≤ c ∧ c ≤ '9' := h c (List.mem_cons_self _ _)
    simp only [List.cons_append, parse_digits, if_pos hc]
    exact ih _ (fun c' hc' => h c' (List.mem_cons_of_mem _ hc'))

/-- The digits `fmt_nat_loop` writes: non-empty, decimal digits only, and
`parse_digits` reads the number back. -/
theorem fmt_nat_loop_spec (f n : Nat) (h : n < f) :
    ∃ ds : CStr, (∀ acc, fmt_nat_loop f n acc = ds ++ acc) ∧ ds ≠ [] ∧
      (∀ c ∈ ds, ∃ k, k < 10 ∧ c = Char.ofNat (48 + k)) ∧ parse_digits ds 0 = n := by
  induction f generalizing n with
  | zero => omega
  | succ f ih =>
    by_cases h10 : n < 10
    · refine ⟨[Char.ofNat (48 + n)], fun acc => by simp [fmt_nat_loop, h10], by simp,
        fun c hc => ⟨n, h10, by simpa using hc⟩, ?_⟩
      obtain ⟨hd, hv, _⟩ := digit_char n h10
      have hd2 : '0' ≤ Char.ofNat (48 + n) ∧ Char.ofNat (48 + n) ≤ '9' := hd
      simp only [parse_digits, if_pos hd2, hv]
      omega
    · obtain ⟨ds, h1, _, h3, h4⟩ := ih (n / 10) (by omega)
      have hk : n % 10 < 10 := Nat.mod_lt _ (by omega)
      obtain ⟨hd, hv, _⟩ := digit_char (n % 10) hk
      have hd2 : '0' ≤ Char.ofNat (48 + n % 10) ∧ Char.ofNat (48 + n % 10) ≤ '9' := hd
      refine ⟨ds ++ [Char.ofNat (48 + n % 10)], fun acc => ?_, by simp, fun c hc => ?_, ?_⟩
      · simp only [fmt_nat_loop, if_neg h10, h1, List.append_assoc, List.singleton_append]
      · rcases List.mem_append.mp hc with hc | hc
        · exact h3 c hc
        · exact ⟨n % 10, hk, by simpa using hc⟩
      · rw [parse_digits_append _ _ _ (fun c hc => by
          obtain ⟨k, hk', rfl⟩ := h3 c hc
          exact (digit_char k hk').1), h4]
        simp only [parse_digits, if_pos hd2, hv]
        omega

theorem to_int_small (n : Nat) (h : n < 2 ^ 31) : to_int (n : Int) = n := by
  unfold to_int
  have h2 : (n : Int) < 2 ^ 31 := by exact_mod_cast h
  norm_num at h2 ⊢
  omega

/-- Reading back with `atoi` what `%d` wrote, for a non-negative `int`. -/
theorem atoi_fmt_d (n : Nat) (h : n < 2 ^ 31) :
    atoi (fmt_d (n : Int)) = n ∧ fmt_d (n : Int) ≠ [] ∧ ':' ∉ fmt_d (n : Int) := by
  obtain ⟨ds, h1, h2, h3, h4⟩ := fmt_nat_loop_spec (n + 1) n (by omega)
  have hf : fmt_d (n : Int) = ds := by
    unfold fmt_d
    rw [if_neg (by omega)]
    simp only [Int.natAbs_ofNat]
    rw [h1 []]; simp
  rw [hf]
  refine ⟨?_, h2, fun hc => ?_⟩
  · obtain ⟨c, cs, rfl⟩ := List.exists_cons_of_ne_nil h2
    obtain ⟨k, hk, hck⟩ := h3 c (List.mem_cons_self _ _)
    obtain ⟨_, _, _, hsp, hm, hp⟩ := digit_char k hk
    rw [← hck] at hsp hm hp
    unfold atoi strtol
    have hdw : List.dropWhile isspace (c :: cs) = c :: cs := by
      simp [List.dropWhile_cons, hsp]
    simp only [hdw, List.head?_cons, Option.some.injEq, if_neg hm, if_neg hp, h4]
    have h2 : (n : Int) < 2 ^ 31 := by exact_mod_cast h
    rw [min_eq_left (by norm_num at h2 ⊢; omega)]
    exact to_int_small n h
  · obtain ⟨k, hk, hck⟩ := h3 _ hc
    exact (digit_char k hk).2.2.1 hck.symm

/-- What `%d` and `%ld` write is never empty and holds no colon. -/
theorem fmt_d_token (x : Int) : fmt_d x ≠ [] ∧ ':' ∉ fmt_d x := by
  obtain ⟨ds, h1, h2, h3, _⟩ := fmt_nat_loop_spec (x.natAbs + 1) x.natAbs (by omega)
  have hnc : ':' ∉ ds := fun hc => by
    obtain ⟨k, hk, hck⟩ := h3 _ hc
    exact (digit_char k hk).2.2.1 hck.symm
  unfold fmt_d
  split_ifs
  · rw [h1 []]
    refine ⟨by simp, ?_⟩
    simp only [List.append_nil, List.mem_cons, not_or]
    exact ⟨by decide, hnc⟩
  · rw [h1 []]
    simpa using ⟨h2, hnc⟩


theorem takeWhile_field (t rest : CStr) (h : ':' ∉ t) :
    (t ++ ':' :: rest).takeWhile (fun c => c ≠ ':') = t ∧
      (t ++ ':' :: rest).dropWhile (fun c => c ≠ ':') = ':' :: rest := by
  induction t with
  | nil => simp [List.takeWhile, List.dropWhile]
  | cons c cs ih =>
    have hc : c ≠ ':' := fun e => h (by simp [e])
    have hcs : ':' ∉ cs := fun e => h (List.mem_cons_of_mem _ e)
    obtain ⟨h1, h2⟩ := ih hcs
    have hd : decide (c ≠ ':') = true := by simp [hc]
    simp only [List.cons_append, List.takeWhile_cons, List.dropWhile_cons, hd, if_true, h1, h2]
    simp

/-- One `strtok` call on a non-empty colon-free field followed by a colon returns
the field and moves behind the colon. -/
theorem strtok_field (t rest : CStr) (hne : t ≠ []) (h : ':' ∉ t) :
    strtok (t ++ ':' :: rest) = some (t, rest) := by
  obtain ⟨c, cs, rfl⟩ := List.exists_cons_of_ne_nil hne
  have hc : c ≠ ':' := fun e => h (by simp [e])
  obtain ⟨h1, h2⟩ := takeWhile_field (c :: cs) rest h
  unfold strtok
  have hdw : List.dropWhile (fun c => decide (c = ':')) (c :: cs ++ ':' :: rest)
      = c :: cs ++ ':' :: rest := by
    simp [List.dropWhile_cons, hc]
  simp only [hdw]
  rw [if_neg (by simp)]
  rw [h1, h2]
  rfl

theorem fmt_descriptors_cons (d : NodeDescriptor) (ds : List NodeDescriptor) :
    fmt_descriptors (d :: ds) =
      d.id ++ ':' :: (d.ipaddr ++ ':' :: (fmt_d d.port ++ ':' ::
        (fmt_d d.timestamp ++ ':' :: fmt_descriptors ds))) := by
  simp [fmt_descriptors]

theorem parse_loop_fmt (clk : Nat → Int) (ds : List NodeDescriptor) (i : Nat)
    (rcv : List NodeDescriptor) (sd : NodeDescriptor)
    (hok : ∀ d ∈ ds, wire_ok d) (hcap : rcv.length + ds.length ≤ VIEW_LENGTH) :
    (parse_loop clk ds.length i
      { rest := fmt_descriptors ds, received := rcv, sender := sd }).received
      = rcv ++ stamp clk rcv.length ds := by
  induction ds generalizing i rcv sd with
  | nil => simp [parse_loop, stamp]
  | cons d ds ih =>
    obtain ⟨h1, h2, h3, h4, h5, h6⟩ := hok d (List.mem_cons_self _ _)
    simp only [List.length_cons] at hcap ⊢
    have hport : atoi (fmt_d d.port) = d.port := by
      obtain ⟨n, hn⟩ : ∃ n : Nat, d.port = n := ⟨d.port.toNat, by omega⟩
      rw [hn]
      exact (atoi_fmt_d n (by norm_num; omega)).1
    rw [parse_loop, if_pos (show rcv.length < VIEW_LENGTH by omega), fmt_descriptors_cons]
    simp only [strtok_field _ _ h1 h2, strtok_field _ _ h3 h4,
      strtok_field _ _ (fmt_d_token d.port).1 (fmt_d_token d.port).2,
      strtok_field _ _ (fmt_d_token d.timestamp).1 (fmt_d_token d.timestamp).2, hport]
    rw [if_pos ⟨List.length_pos.mpr h1, by omega⟩]
    rw [ih (i + 1) _ _ (fun d' hd' => hok d' (List.mem_cons_of_mem _ hd'))
      (by simp only [List.length_append, List.length_singleton]; omega)]
    simp [stamp]

theorem stamp_spec (clk : Nat → Int) (k : Nat) (ds : List NodeDescriptor) :
    (stamp clk k ds).length = ds.length ∧
      (stamp clk k ds).map NodeDescriptor.id = ds.map NodeDescriptor.id ∧
      (stamp clk k ds).map NodeDescriptor.ipaddr = ds.map NodeDescriptor.ipaddr ∧
      (stamp clk k ds).map NodeDescriptor.port = ds.map NodeDescriptor.port ∧
      ∀ j, j < ds.length →
        ((stamp clk k ds).getD j NodeDescriptor.zero).timestamp = clk (k + j) := by
  induction ds generalizing k with
  | nil => simp [stamp]
  | cons d ds ih =>
    obtain ⟨h1, h2, h3, h4, h5⟩ := ih (k + 1)
    refine ⟨by simp [stamp, h1], by simp [stamp, h2], by simp [stamp, h3], by simp [stamp, h4],
      fun j hj => ?_⟩
    cases j with
    | zero => simp [stamp]
    | succ j =>
      simp only [List.length_cons, Nat.add_lt_add_iff_right] at hj
      simp only [stamp, List.getD_cons_succ]
      rw [h5 j hj]
      congr 1
      omega

/-- The PUSH handler, written with `parse_datagram`. -/
theorem handle_push_parse (rnd : Nat → Nat) (clk : Nat → Int) (buf : CStr) (s : State) :
    handle_push rnd clk buf s =
      match parse_datagram clk buf with
      | none => (s, [])
      | some p =>
        ({ s with myView :=
            (update_descriptor
              (integrate s.myDescriptor.id p.received
                (if s.myView.count > 0 then select_random_descriptors rnd s.myView SWAP_LENGTH
                  else (s.myView, [])).1) p.sender).1 },
          [{ dest := Dest.clientaddr,
             payload := fmt_message "CYCLON_REPLY:".toList
               (if s.myView.count > 0 then select_random_descriptors rnd s.myView SWAP_LENGTH
                 else (s.myView, [])).2 }]) := by
  unfold handle_push parse_datagram fmt_message
  rcases strtok buf with _ | ⟨t0, r0⟩
  · rfl
  dsimp only
  rcases strtok r0 with _ | ⟨t1, r1⟩
  · rfl
  rfl

/-- The REPLY handler, written with `parse_datagram`. -/
theorem handle_reply_parse (clk : Nat → Int) (buf : CStr) (s : State) :
    handle_reply clk buf s =
      match parse_datagram clk buf with
      | none => (s, [])
      | some p =>
        ({ s with
            myView :=
              (update_descriptor (integrate s.myDescriptor.id p.received s.myView)
                { s.last_partner with timestamp := clk p.received.length }).1,
            last_partner := { s.last_partner with timestamp := clk p.received.length } }, []) := by
  unfold handle_reply parse_datagram
  rcases strtok buf with _ | ⟨t0, r0⟩
  · rfl
  dsimp only
  rcases strtok r0 with _ | ⟨t1, r1⟩
  · rfl
  rfl

/-- The cycle's datagram is `fmt_message` of the self descriptor followed by the
sampled descriptors. -/
theorem cyclon_cycle_payload (rnd : Nat → Nat) (now : Int) (s : State) :
    (cyclon_cycle rnd now s).2 = [] ∨
      ∃ sent, (cyclon_cycle rnd now s).2.map Packet.payload =
        [fmt_message "CYCLON_PUSH:".toList ({ s.myDescriptor with timestamp := now } :: sent)] := by
  have key : ∀ l : List NodeDescriptor,
      "CYCLON_PUSH:".toList ++ fmt_d (1 + (l.length : Int)) ++ [':'] ++
          fmt_descriptors ({ s.myDescriptor with timestamp := now } :: l)
        = fmt_message "CYCLON_PUSH:".toList ({ s.myDescriptor with timestamp := now } :: l) := by
    intro l
    have e : (((l.length + 1 : Nat) : Int)) = 1 + (l.length : Int) := by push_cast; ring
    simp only [fmt_message, List.length_cons, e]
  unfold cyclon_cycle
  dsimp only
  split_ifs
  all_goals first
    | (left; rfl)
    | (right; exact ⟨_, congrArg (fun x => [x]) (key _)⟩)

theorem parse_fmt_message (clk : Nat → Int) (tag_ok : CStr × CStr) (ds : List NodeDescriptor)
    (htag : ∀ rest, strtok (tag_ok.1 ++ rest) = some (tag_ok.2, rest))
    (hlen : ds.length ≤ VIEW_LENGTH) (hok : ∀ d ∈ ds, wire_ok d) :
    (parse_datagram clk (fmt_message tag_ok.1 ds)).map ParseState.received
      = some (stamp clk 0 ds) := by
  obtain ⟨ha, hb, hc⟩ := atoi_fmt_d ds.length (by
    simp only [VIEW_LENGTH] at hlen; norm_num; omega)
  unfold parse_datagram fmt_message
  rw [List.append_assoc, List.append_assoc, htag]
  dsimp only
  rw [List.singleton_append, strtok_field _ _ hb hc]
  dsimp only
  rw [ha, Int.toNat_ofNat, Option.map_some', parse_loop_fmt clk ds 0 [] _ hok (by simpa using hlen)]
  simp

/-- C15: for every list of 1 to `VIEW_LENGTH` descriptors whose ids and addresses
are non-empty and colon-free and whose ports lie in 1..65535, whatever their
timestamps, parsing the text the PUSH formatter or the REPLY formatter writes for
them yields the same number of descriptors, with the same ids, addresses and
ports in the same order, the `k`-th of them stamped with the receiver's `k`-th
clock reading. -/
theorem wire_round_trip (clk : Nat → Int) (ds : List NodeDescriptor)
    (hlen : 1 ≤ ds.length ∧ ds.length ≤ VIEW_LENGTH)
    (hok : ∀ d ∈ ds, d.id ≠ [] ∧ ':' ∉ d.id ∧ d.ipaddr ≠ [] ∧ ':' ∉ d.ipaddr ∧
      1 ≤ d.port ∧ d.port ≤ 65535) :
    ∃ received : List NodeDescriptor,
      (parse_datagram clk (fmt_message "CYCLON_PUSH:".toList ds)).map ParseState.received
          = some received ∧
        (parse_datagram clk (fmt_message "CYCLON_REPLY:".toList ds)).map ParseState.received
          = some received ∧
        received.length = ds.length ∧
        received.map NodeDescriptor.id = ds.map NodeDescriptor.id ∧
        received.map NodeDescriptor.ipaddr = ds.map NodeDescriptor.ipaddr ∧
        received.map NodeDescriptor.port = ds.map NodeDescriptor.port ∧
        ∀ k, k < ds.length → (received.getD k NodeDescriptor.zero).timestamp = clk k := by
  obtain ⟨h1, h2, h3, h4, h5⟩ := stamp_spec clk 0 ds
  refine ⟨stamp clk 0 ds,
    parse_fmt_message clk ("CYCLON_PUSH:".toList, "CYCLON_PUSH".toList) ds strtok_push_tag
      hlen.2 hok,
    parse_fmt_message clk ("CYCLON_REPLY:".toList, "CYCLON_REPLY".toList) ds strtok_reply_tag
      hlen.2 hok,
    h1, h2, h3, h4, fun k hk => ?_⟩
  rw [h5 k hk, Nat.zero_add]

theorem wire_round_trip_witness :
    (1 ≤ [exA, { exB with timestamp := -5 }].length ∧
        [exA, { exB with timestamp := -5 }].length ≤ VIEW_LENGTH) ∧
      (∀ d ∈ [exA, { exB with timestamp := -5 }],
        d.id ≠ [] ∧ ':' ∉ d.id ∧ d.ipaddr ≠ [] ∧ ':' ∉ d.ipaddr ∧ 1 ≤ d.port ∧ d.port ≤ 65535) ∧
      ∃ received : List NodeDescriptor,
        (parse_datagram (fun k => 200 + k)
            (fmt_message "CYCLON_PUSH:".toList [exA, { exB with timestamp := -5 }])).map
            ParseState.received = some received ∧
          (parse_datagram (fun k => 200 + k)
            (fmt_message "CYCLON_REPLY:".toList [exA, { exB with timestamp := -5 }])).map
            ParseState.received = some received ∧
          received.length = [exA, { exB with timestamp := -5 }].length ∧
          received.map NodeDescriptor.id
            = [exA, { exB with timestamp := -5 }].map NodeDescriptor.id ∧
          received.map NodeDescriptor.ipaddr
            = [exA, { exB with timestamp := -5 }].map NodeDescriptor.ipaddr ∧
          received.map NodeDescriptor.port
            = [exA, { exB with timestamp := -5 }].map NodeDescriptor.port ∧
          ∀ k, k < [exA, { exB with timestamp := -5 }].length →
            (received.getD k NodeDescriptor.zero).timestamp = (fun k : Nat => (200 + k : Int)) k :=
  ⟨by decide, by decide,
   wire_round_trip (fun k => 200 + k) [exA, { exB with timestamp := -5 }] (by decide)
     (by decide)⟩

/-! ## C21: the reply is sampled from the view before integration -/

/-- The descriptors the PUSH handler puts in its reply: sampled from the view it
is given, before anything received is integrated. -/
theorem reply_sample (rnd : Nat → Nat) (v : View) (hw : v.wf) (hn : v.ids.Nodup) :
    ((if v.count > 0 then select_random_descriptors rnd v SWAP_LENGTH else (v, [])).2.length : Int)
        = min (SWAP_LENGTH : Int) v.count ∧
      (∀ d ∈ (if v.count > 0 then select_random_descriptors rnd v SWAP_LENGTH else (v, [])).2,
        d ∈ v.entries) ∧
      ((if v.count > 0 then select_random_descriptors rnd v SWAP_LENGTH else (v, [])).2.map
        NodeDescriptor.id).Nodup := by
  have h0 := hw.2.1
  split_ifs with hc
  · have hi := (select_random_descriptors_inv rnd v SWAP_LENGTH hw).2.2.2
    have hp := select_random_descriptors_perm rnd v SWAP_LENGTH hw (le_refl _)
    refine ⟨?_, fun d hd => ?_, ?_⟩
    · rw [hi]; simp [SWAP_LENGTH]
    · exact hp.subset (List.mem_append_left _ hd)
    · have h2 : ((select_random_descriptors rnd v SWAP_LENGTH).2.map NodeDescriptor.id ++
          (select_random_descriptors rnd v SWAP_LENGTH).1.entries.map NodeDescriptor.id).Nodup := by
        rw [← List.map_append]
        exact (hp.map NodeDescriptor.id).nodup_iff.mpr hn
      exact h2.of_append_left
  · have hz : v.count = 0 := by omega
    simp [hz, SWAP_LENGTH]

/-- C21: for every well-formed responder view with pairwise distinct ids, every
datagram `CYCLON_PUSH:` followed by `rest`, every clock and every draws: when the
handler reaches its reply code (`rest` holds a count token), exactly one datagram
is sent, to the sender, and it is the `CYCLON_REPLY` text of a list `sel` of
exactly `min SWAP_LENGTH count` descriptors, each an entry of the view as it was
before the PUSH was handled, with pairwise distinct ids; `sel` is the sample
drawn from that former view, so it does not depend on what the PUSH carried.
A datagram without a count token never reaches the reply code: the handler
leaves at `if (!token) continue;`, nothing is sent and the state is unchanged. -/
theorem reply_from_pre_view (rnd : Nat → Nat) (clk : Nat → Int) (s : State) (rest : CStr)
    (hw : s.myView.wf) (hn : s.myView.ids.Nodup) :
    (strtok rest = none →
        main_step s (Event.datagram ("CYCLON_PUSH:".toList ++ rest) clk rnd) = (s, [])) ∧
      (∀ cnt r1 : CStr, strtok rest = some (cnt, r1) →
        ∃ sel : List NodeDescriptor,
          (main_step s (Event.datagram ("CYCLON_PUSH:".toList ++ rest) clk rnd)).2
              = [{ dest := Dest.clientaddr,
                   payload := fmt_message "CYCLON_REPLY:".toList sel }] ∧
            (sel.length : Int) = min (SWAP_LENGTH : Int) s.myView.count ∧
            (∀ d ∈ sel, d ∈ s.myView.entries) ∧
            (sel.map NodeDescriptor.id).Nodup ∧
            sel = (if s.myView.count > 0 then select_random_descriptors rnd s.myView SWAP_LENGTH
                    else (s.myView, [])).2) := by
  obtain ⟨ha, hb, hc⟩ := reply_sample rnd s.myView hw hn
  constructor
  · intro h0
    simp only [main_step]
    rw [handle_datagram_push, handle_push_parse]
    unfold parse_datagram
    rw [strtok_push_tag]
    simp only [h0]
  · intro cnt r1 h1
    refine ⟨_, ?_, ha, hb, hc, rfl⟩
    simp only [main_step]
    rw [handle_datagram_push, handle_push_parse]
    unfold parse_datagram
    rw [strtok_push_tag]
    simp only [h1]

theorem reply_from_pre_view_witness :
    exStart4.myView.wf ∧ exStart4.myView.ids.Nodup ∧
      strtok "1:X:10.0.0.8:9008:0:".toList = some ("1".toList, "X:10.0.0.8:9008:0:".toList) ∧
      ∃ sel : List NodeDescriptor,
        (main_step exStart4
            (Event.datagram ("CYCLON_PUSH:".toList ++ "1:X:10.0.0.8:9008:0:".toList)
              (fun _ => 112) (draws [1, 0]))).2
            = [{ dest := Dest.clientaddr,
                 payload := fmt_message "CYCLON_REPLY:".toList sel }] ∧
          (sel.length : Int) = min (SWAP_LENGTH : Int) exStart4.myView.count ∧
          (∀ d ∈ sel, d ∈ exStart4.myView.entries) ∧
          (sel.map NodeDescriptor.id).Nodup ∧
          sel = (if exStart4.myView.count > 0
                  then select_random_descriptors (draws [1, 0]) exStart4.myView SWAP_LENGTH
                  else (exStart4.myView, [])).2 :=
  ⟨by decide, by decide, by decide,
   (reply_from_pre_view (draws [1, 0]) (fun _ => 112) exStart4 "1:X:10.0.0.8:9008:0:".toList
     (by decide) (by decide)).2 "1".toList "X:10.0.0.8:9008:0:".toList (by decide)⟩

/-! ## No view holds an empty id -/

theorem add_descriptor_named (v : View) (d : NodeDescriptor) (h : v.named) :
    (add_descriptor v d).1.named := by
  refine ⟨add_descriptor_wf v d h.1, fun hmem => ?_⟩
  rcases add_descriptor_ids v d [] h.1 hmem with h1 | h1
  · exact h.2 h1
  · have hv : (add_descriptor v d).1 = v := by
      unfold add_descriptor
      split_ifs with h2 h3
      · rfl
      · rfl
      · exact absurd (by rw [← h1]; rfl) h3
    rw [hv] at hmem
    exact h.2 hmem

theorem update_descriptor_ids (v : View) (d : NodeDescriptor) (y : CStr) (hw : v.wf)
    (hid : d.id ≠ []) (hy : y ∈ (update_descriptor v d).1.ids) : y ∈ v.ids ∨ y = d.id := by
  obtain ⟨a, b, c, rfl | rfl | rfl | rfl⟩ := v.wf_cases hw <;>
    simp [update_descriptor, exists_loop, View.ids, View.entries, VIEW_LENGTH, rd,
      set_timestamp, hid] at hy ⊢
  · exact hy
  · revert hy; split_ifs <;> first | (simp; done) | (simp; tauto)
  · revert hy; split_ifs <;> first | (simp; done) | (simp; tauto)
  · revert hy; split_ifs <;> first | (simp; done) | (simp; tauto)

theorem update_descriptor_named (v : View) (d : NodeDescriptor) (h : v.named) :
    (update_descriptor v d).1.named := by
  refine ⟨update_descriptor_wf v d h.1, ?_⟩
  by_cases hid : d.id = []
  · have hv : (update_descriptor v d).1 = v := by simp [update_descriptor, hid]
    rw [hv]; exact h.2
  · intro hmem
    rcases update_descriptor_ids v d [] h.1 hid hmem with h1 | h1
    · exact h.2 h1
    · exact hid h1.symm

theorem View.named_of_sublist {v w : View} (hw : w.wf) (hs : w.entries.Sublist v.entries)
    (hv : v.named) : w.named :=
  ⟨hw, fun h => hv.2 ((List.Sublist.map NodeDescriptor.id hs).subset h)⟩

theorem remove_descriptor_named (v : View) (index : Int) (h : v.named) :
    (remove_descriptor v index).1.named :=
  View.named_of_sublist (remove_descriptor_wf v index h.1)
    (remove_descriptor_sublist v index h.1) h

theorem select_random_descriptors_named (rnd : Nat → Nat) (v : View) (k : Int) (h : v.named) :
    (select_random_descriptors rnd v k).1.named :=
  View.named_of_sublist (select_random_descriptors_inv rnd v k h.1).1
    (select_random_descriptors_inv rnd v k h.1).2.1 h

theorem integrate_named (myid : CStr) (ds : List NodeDescriptor) (v : View) (h : v.named) :
    (integrate myid ds v).named := by
  induction ds generalizing v with
  | nil => exact h
  | cons d ds ih =>
    simp only [integrate]
    split_ifs
    · exact ih _ (add_descriptor_named v d h)
    · exact ih _ h

theorem seed_loop_named (allUsers : List NodeDescriptor) (otherIndices : List Nat) (n i : Nat)
    (v : View) (h : v.named) : (seed_loop allUsers otherIndices n i v).named := by
  induction n generalizing i v with
  | zero => exact h
  | succ n ih => exact ih _ _ (add_descriptor_named v _ h)

theorem cyclon_cycle_named (rnd : Nat → Nat) (now : Int) (s : State) (h : s.myView.named) :
    (cyclon_cycle rnd now s).1.myView.named := by
  unfold cyclon_cycle
  have hr1 := remove_descriptor_named s.myView (find_oldest_descriptor s.myView) h
  have hr2 := remove_descriptor_named _ (find_oldest_descriptor
    (add_descriptor (remove_descriptor s.myView (find_oldest_descriptor s.myView)).1
      (remove_descriptor s.myView (find_oldest_descriptor s.myView)).2).1)
    (add_descriptor_named _ (remove_descriptor s.myView (find_oldest_descriptor s.myView)).2 hr1)
  dsimp only
  split_ifs
  all_goals first
    | exact h
    | exact hr1
    | exact hr2
    | exact select_random_descriptors_named _ _ _ hr1
    | exact select_random_descriptors_named _ _ _ hr2

theorem handle_push_named (rnd : Nat → Nat) (clk : Nat → Int) (buf : CStr) (s : State)
    (h : s.myView.named) : (handle_push rnd clk buf s).1.myView.named := by
  unfold handle_push
  split
  · exact h
  · split
    · exact h
    · simp only []
      apply update_descriptor_named
      apply integrate_named
      split_ifs
      · exact select_random_descriptors_named _ _ _ h
      · exact h

theorem handle_reply_named (clk : Nat → Int) (buf : CStr) (s : State)
    (h : s.myView.named) : (handle_reply clk buf s).1.myView.named := by
  unfold handle_reply
  split
  · exact h
  · split
    · exact h
    · simp only []
      exact update_descriptor_named _ _ (integrate_named _ _ _ h)

theorem main_step_named (s : State) (e : Event) (h : s.myView.named) :
    (main_step s e).1.myView.named := by
  cases e with
  | tick clk rnd =>
    simp only [main_step]
    split_ifs
    · exact cyclon_cycle_named _ _ _ h
    · exact h
  | datagram buf clk rnd =>
    simp only [main_step, handle_datagram]
    split_ifs
    · exact handle_push_named _ _ _ _ h
    · exact handle_reply_named _ _ _ h
    · rw [handle_gossip_view]; exact h
  | input buf rnd =>
    simp only [main_step]
    rw [handle_input_view]; exact h

theorem main_init_named (allUsers : List NodeDescriptor) (portno : Int) (rnd : Nat → Nat)
    (junk : List NodeDescriptor) (cjunk : List CStr) (now : Int) (s : State)
    (hj : junk.length = VIEW_LENGTH)
    (h : main_init allUsers portno rnd junk cjunk now = some s) : s.myView.named := by
  unfold main_init at h
  split_ifs at h
  split at h
  · exact absurd h (by simp)
  · simp only [Option.some.injEq] at h
    subst h
    apply seed_loop_named
    exact ⟨⟨hj, by simp, by simp⟩, by simp [View.ids, View.entries]⟩

/-- No view of a run holds an empty id: from start-up on, through any events,
every entry of the view has a non-empty id. -/
theorem main_run_named (s : State) (es : List Event) (h : s.myView.named) :
    (main_run s es).myView.named ∧ ∀ e ∈ (main_run s es).myView.entries, e.id ≠ [] := by
  have key : (main_run s es).myView.named := by
    induction es generalizing s with
    | nil => exact h
    | cons e es ih => exact ih _ (main_step_named s e h)
  exact ⟨key, fun e he hid => key.2 (hid ▸ List.mem_map_of_mem NodeDescriptor.id he)⟩

/-! ## C22: effect of one cycle -/

theorem update_descriptor_absent_room (v : View) (d : NodeDescriptor) (hw : v.wf)
    (hid : d.id ≠ []) (hmem : d.id ∉ v.ids) (hc : v.count < VIEW_LENGTH) :
    (update_descriptor v d).1.entries = v.entries ++ [d] := by
  obtain ⟨a, b, c, rfl | rfl | rfl | rfl⟩ := v.wf_cases hw <;>
    simp [update_descriptor, exists_loop, View.ids, View.entries, VIEW_LENGTH, rd,
      set_timestamp, hid, eq_comm (a := d.id)] at hmem hc ⊢ <;>
    simp [hmem]

theorem update_descriptor_absent_full (v : View) (d : NodeDescriptor) (hw : v.wf)
    (hmem : d.id ∉ v.ids) (hc : v.count = VIEW_LENGTH) :
    (update_descriptor v d).1 = v := by
  by_cases hid : d.id = []
  · simp [update_descriptor, hid]
  obtain ⟨a, b, c, rfl | rfl | rfl | rfl⟩ := v.wf_cases hw <;>
    simp [update_descriptor, exists_loop, View.ids, View.entries, VIEW_LENGTH, rd,
      set_timestamp, hid, eq_comm (a := d.id)] at hmem hc ⊢
  simp [hmem]

/-- Whether `update_descriptor` leaves an entry with the id and timestamp of `d`. -/
theorem update_descriptor_present_iff (v : View) (d : NodeDescriptor) (hw : v.wf)
    (hid : d.id ≠ []) :
    (∃ e ∈ (update_descriptor v d).1.entries, e.id = d.id ∧ e.timestamp = d.timestamp) ↔
      (d.id ∈ v.ids ∨ v.count < VIEW_LENGTH) := by
  constructor
  · rintro ⟨e, he, hi, _⟩
    by_contra hcon
    push_neg at hcon
    have hfull : v.count = VIEW_LENGTH := le_antisymm hw.2.2 hcon.2
    rw [update_descriptor_absent_full v d hw hcon.1 hfull] at he
    exact hcon.1 (hi ▸ List.mem_map_of_mem NodeDescriptor.id he)
  · intro h
    by_cases hmem : d.id ∈ v.ids
    · exact update_descriptor_refresh v d hw hid hmem
    · have hc : v.count < VIEW_LENGTH := h.resolve_left hmem
      refine ⟨d, ?_, rfl, rfl⟩
      rw [update_descriptor_absent_room v d hw hid hmem hc]
      simp

/-- C23: for every well-formed view, every `last_partner` Q with a non-empty id,
every datagram `CYCLON_REPLY:` followed by `rest` and every clock: when the
handler reaches integration (the datagram is parsed, `p.received` being the
descriptors received and `clk p.received.length` the clock reading taken for the
refresh), `last_partner` carries that reading, the final view holds an entry with
Q's id and that timestamp exactly when, after the received descriptors other than
self were integrated, Q's id was in the view or the view held fewer than
`VIEW_LENGTH` entries; and when Q's id was absent and the view at capacity, the
final view is the view after integration and does not hold Q's id.  A datagram
without a count token never reaches integration: the handler leaves at
`if (!token) continue;` and the state is unchanged. -/
theorem reply_restores_partner (rnd : Nat → Nat) (clk : Nat → Int) (s : State) (rest : CStr)
    (hw : s.myView.wf) (hq : s.last_partner.id ≠ []) :
    (parse_datagram clk ("CYCLON_REPLY:".toList ++ rest) = none →
        main_step s (Event.datagram ("CYCLON_REPLY:".toList ++ rest) clk rnd) = (s, [])) ∧
      (∀ p : ParseState, parse_datagram clk ("CYCLON_REPLY:".toList ++ rest) = some p →
        (main_step s (Event.datagram ("CYCLON_REPLY:".toList ++ rest) clk rnd)).1.last_partner
            = { s.last_partner with timestamp := clk p.received.length } ∧
          ((∃ e ∈ (main_step s
                (Event.datagram ("CYCLON_REPLY:".toList ++ rest) clk rnd)).1.myView.entries,
              e.id = s.last_partner.id ∧ e.timestamp = clk p.received.length) ↔
            (s.last_partner.id ∈ (integrate s.myDescriptor.id p.received s.myView).ids ∨
              (integrate s.myDescriptor.id p.received s.myView).count < VIEW_LENGTH)) ∧
          (s.last_partner.id ∉ (integrate s.myDescriptor.id p.received s.myView).ids →
            (integrate s.myDescriptor.id p.received s.myView).count = VIEW_LENGTH →
            (main_step s (Event.datagram ("CYCLON_REPLY:".toList ++ rest) clk rnd)).1.myView
                = integrate s.myDescriptor.id p.received s.myView ∧
              s.last_partner.id ∉ (main_step s
                (Event.datagram ("CYCLON_REPLY:".toList ++ rest) clk rnd)).1.myView.ids)) := by
  constructor
  · intro hp
    simp only [main_step]
    rw [handle_datagram_reply, handle_reply_parse, hp]
  · intro p hp
    have hwi := integrate_wf s.myDescriptor.id p.received s.myView hw
    simp only [main_step]
    rw [handle_datagram_reply, handle_reply_parse, hp]
    dsimp only
    refine ⟨rfl, ?_, fun hmem hc => ?_⟩
    · exact update_descriptor_present_iff _
        { s.last_partner with timestamp := clk p.received.length } hwi hq
    · have := update_descriptor_absent_full _
        { s.last_partner with timestamp := clk p.received.length } hwi hmem hc
      rw [this]
      exact ⟨rfl, hmem⟩

theorem reply_restores_partner_witness :
    exReplyState.myView.wf ∧ exReplyState.last_partner.id ≠ [] ∧
      parse_datagram (fun _ => 111) ("CYCLON_REPLY:".toList ++ "1:D:10.0.0.4:9004:0:".toList)
        = some { rest := [], received := [{ exD with timestamp := 111 }],
                 sender := { exD with timestamp := 111 } } ∧
      ((main_step exReplyState
          (Event.datagram ("CYCLON_REPLY:".toList ++ "1:D:10.0.0.4:9004:0:".toList)
            (fun _ => 111) (draws []))).1.last_partner
          = { exReplyState.last_partner with
              timestamp := (fun _ : Nat => (111 : Int)) [{ exD with timestamp := 111 }].length } ∧
        ((∃ e ∈ (main_step exReplyState
              (Event.datagram ("CYCLON_REPLY:".toList ++ "1:D:10.0.0.4:9004:0:".toList)
                (fun _ => 111) (draws []))).1.myView.entries,
            e.id = exReplyState.last_partner.id ∧
              e.timestamp
                = (fun _ : Nat => (111 : Int)) [{ exD with timestamp := 111 }].length) ↔
          (exReplyState.last_partner.id ∈
              (integrate exReplyState.myDescriptor.id [{ exD with timestamp := 111 }]
                exReplyState.myView).ids ∨
            (integrate exReplyState.myDescriptor.id [{ exD with timestamp := 111 }]
              exReplyState.myView).count < VIEW_LENGTH)) ∧
        (exReplyState.last_partner.id ∉
            (integrate exReplyState.myDescriptor.id [{ exD with timestamp := 111 }]
              exReplyState.myView).ids →
          (integrate exReplyState.myDescriptor.id [{ exD with timestamp := 111 }]
            exReplyState.myView).count = VIEW_LENGTH →
          (main_step exReplyState
              (Event.datagram ("CYCLON_REPLY:".toList ++ "1:D:10.0.0.4:9004:0:".toList)
                (fun _ => 111) (draws []))).1.myView
              = integrate exReplyState.myDescriptor.id [{ exD with timestamp := 111 }]
                  exReplyState.myView ∧
            exReplyState.last_partner.id ∉ (main_step exReplyState
              (Event.datagram ("CYCLON_REPLY:".toList ++ "1:D:10.0.0.4:9004:0:".toList)
                (fun _ => 111) (draws []))).1.myView.ids)) :=
  ⟨by decide, by decide, by decide,
   (reply_restores_partner (draws []) (fun _ => 111) exReplyState "1:D:10.0.0.4:9004:0:".toList
     (by decide) (by decide)).2
     { rest := [], received := [{ exD with timestamp := 111 }],
       sender := { exD with timestamp := 111 } } (by decide)⟩

end Cyclon
